import Mathlib

/-!
Verification of the AdGuard for Safari filter-category / filter-lifecycle modules
(`filters-categories.js` and the filters manager) against their specification.

The JavaScript source is shallowly embedded: the mutable subscription catalog,
tag catalog and persisted filter-state store become explicit state records,
callback-driven code becomes functions returning updated state together with a
trace of externally observable actions (loader invocations and notification
events), and thrown exceptions become an explicit `thrown` result.
-/

namespace AdGuard

/-! ## Data model -/

/-- A filter from the subscription catalog.  Transient JS flags that are only
ever tested for truthiness (`installed`, `loaded`, `removed`, `enabled`) are
Booleans (`undefined` behaves as `false` in every use site of the source);
`customUrl` keeps the `undefined`/string distinction as `Option String`. -/
structure Filter where
  filterId : Nat
  groupId : Nat
  tags : List Nat
  languages : List String
  customUrl : Option String
  enabled : Bool
  installed : Bool
  loaded : Bool
  removed : Bool
deriving DecidableEq, Repr

/-- A group.  `enabled` is genuinely three-valued in the source
(`typeof group.enabled === 'undefined'` is tested), hence `Option Bool`. -/
structure Group where
  groupId : Nat
  enabled : Option Bool
deriving DecidableEq, Repr

/-- A tag from the tag catalog. -/
structure Tag where
  tagId : Nat
  keyword : String
deriving DecidableEq, Repr

/-- Persisted per-filter state info from the filter state store. -/
structure StateInfo where
  enabled : Bool
  installed : Bool
  loaded : Bool
deriving DecidableEq, Repr

/-- Notification events emitted to the notifier bus; the payload is reduced to
the filter/group id, which is all the claims consult. -/
inductive Event where
  | filterGroupEnableDisable (groupId : Nat)
  | filterEnableDisable (filterId : Nat)
  | filterAddRemove (filterId : Nat)
deriving DecidableEq, Repr

/-- Externally observable actions: an invocation of the external loader
(`filtersUpdate.loadFilterRules`), the firing of its completion callback, and
notification events. -/
inductive Action where
  | loadStart (filterId : Nat)
  | loadDone (filterId : Nat) (success : Bool)
  | event (e : Event)
deriving DecidableEq, Repr

/-- The filter id an action is about, if any (group events carry none). -/
def actionFid : Action → Option Nat
  | .loadStart i => some i
  | .loadDone i _ => some i
  | .event (.filterEnableDisable i) => some i
  | .event (.filterAddRemove i) => some i
  | .event (.filterGroupEnableDisable _) => none

/-- Whether an action is a loader invocation or its completion callback. -/
def isLoadAct : Action → Bool
  | .loadStart _ => true
  | .loadDone _ _ => true
  | _ => false

/-- Number of `FILTER_ENABLE_DISABLE` notifications in a trace. -/
def countFilterEnableEvents (tr : List Action) : Nat :=
  (tr.filter (fun a => match a with
    | .event (.filterEnableDisable _) => true
    | _ => false)).length

/-! ## Generic list-state helpers

JS mutates the first object returned by `Array.prototype.find`; `updateBy`
mirrors that by rewriting only the first element matching the key. -/

/-- Find the first element with the given key (JS `arr.find(x => key(x) === k)`). -/
def findBy {α : Type} (key : α → Nat) (k : Nat) (l : List α) : Option α :=
  l.find? (fun a => key a = k)

/-- Rewrite the first element with the given key (JS object mutation through
the reference returned by `find`). -/
def updateBy {α : Type} (key : α → Nat) (k : Nat) (g : α → α) : List α → List α
  | [] => []
  | a :: rest => if key a = k then g a :: rest else a :: updateBy key k g rest

/-- Upsert into an association list (JS `obj[k] = v`). -/
def storeSet : List (Nat × StateInfo) → Nat → StateInfo → List (Nat × StateInfo)
  | [], k, v => [(k, v)]
  | (k', v') :: rest, k, v =>
      if k' = k then (k, v) :: rest else (k', v') :: storeSet rest k v

/-- Association-list lookup (JS `obj[k]`). -/
def storeGet (l : List (Nat × StateInfo)) (k : Nat) : Option StateInfo :=
  (l.find? (fun p => p.1 = k)).map (·.2)

/-! ## String operations used on tag keywords

`keyword.substring(keyword.indexOf(':') + 1)` and `String.prototype.startsWith`
are modelled on the character list underlying the string. -/

/-- Characters strictly after the first `':'`, if any. -/
def dropThroughColon : List Char → Option (List Char)
  | [] => none
  | c :: rest => if c = ':' then some rest else dropThroughColon rest

/-- JS `s.substring(s.indexOf(':') + 1)`: everything after the first colon,
or the whole string when there is no colon (`indexOf` returns `-1`). -/
def stripTagPrefix (s : String) : String :=
  ⟨(dropThroughColon s.data).getD s.data⟩

/-- JS `s.startsWith(pre)`. -/
def kwStartsWith (s pre : String) : Bool :=
  pre.data.isPrefixOf s.data

/-- Number of `':'` characters in a string (used to express the "at most one
namespace prefix" shape of tag keywords). -/
def colonCount (s : String) : Nat :=
  s.data.count ':'

/-! ## Environment

External read-only collaborators: configuration constants, the locale-derived
language-suitable filter ids, the mobile-device indicator (`none` models a
runtime without `navigator.userAgent`), and the outcome the external loader
reports for each filter id. -/

structure Env where
  safariFilterId : Nat
  langSuitableFilters : List Nat
  isMobileDevice : Option Bool
  loadOutcome : Nat → Bool

/-! ## Tag service (`filters-tags.js`, not part of the sources under review) -/

/-- Modelled from the spec: `filters-tags.js` is missing from the sources; per
the spec a recommended filter is "a Filter whose tags mark it as suitable for
automatic offering", the mark being the `recommended` tag keyword.  The filter
carries the tag id of a catalog tag whose keyword is `"recommended"`. -/
def isRecommendedFilter (tags : List Tag) (f : Filter) : Bool :=
  f.tags.any (fun tid =>
    match findBy Tag.tagId tid tags with
    | some t => t.keyword = "recommended"
    | none => false)

/-- Modelled from the spec: `filters-tags.js` is missing from the sources; per
the spec the `mobile` recommendation predicate tests a tag keyword marking the
filter as mobile-only. -/
def isMobileFilter (tags : List Tag) (f : Filter) : Bool :=
  f.tags.any (fun tid =>
    match findBy Tag.tagId tid tags with
    | some t => t.keyword = "mobile"
    | none => false)

/-! ## Category Selector (`filters-categories.js`) -/

/-- `checkMobile` from `filters-categories.js`: a non-mobile filter always
passes; a mobile filter passes only on a mobile device, and never when no
user agent is available (`env.isMobileDevice = none`). -/
def checkMobile (env : Env) (tags : List Tag) (f : Filter) : Bool :=
  let isMobileF := isMobileFilter tags f
  if !isMobileF then true
  else
    match env.isMobileDevice with
    | some isMobileDevice => isMobileF && isMobileDevice
    | none => false

/-- `isOfferedFilter` from `filters-categories.js`. -/
def isOfferedFilter (env : Env) (tags : List Tag) (f : Filter)
    (langSuitableFilters : List Nat) (safariFilterId : Nat) : Bool :=
  if safariFilterId = f.filterId then true
  else if !isRecommendedFilter tags f then false
  else if f.languages.length > 0 then
    if langSuitableFilters.contains f.filterId then checkMobile env tags f
    else false
  else checkMobile env tags f

/-- The `f.tags.forEach` body of the categories module's `getFilters`: walks a
filter's tag ids, skipping missing tags and `reference:`-prefixed keywords,
stripping the namespace prefix in place on the shared tag object for all
non-`lang:` keywords, and collecting the tag ids pushed onto `tagsDetails`.
Returns the pushed ids together with the mutated tag catalog. -/
def collectTagsDetails (tags : List Tag) : List Nat → List Nat × List Tag
  | [] => ([], tags)
  | tid :: rest =>
    match findBy Tag.tagId tid tags with
    | none => collectTagsDetails tags rest
    | some t =>
      if kwStartsWith t.keyword "reference:" then
        collectTagsDetails tags rest
      else if kwStartsWith t.keyword "lang:" then
        (tid :: (collectTagsDetails tags rest).1, (collectTagsDetails tags rest).2)
      else
        (tid :: (collectTagsDetails (updateBy Tag.tagId tid
            (fun t0 => { t0 with keyword := stripTagPrefix t0.keyword }) tags) rest).1,
         (collectTagsDetails (updateBy Tag.tagId tid
            (fun t0 => { t0 with keyword := stripTagPrefix t0.keyword }) tags) rest).2)

/-- Inner loop of the categories module's `getFilters`: annotate each visible
filter with its `tagsDetails` (as the list of pushed tag ids — the JS array
holds references into the tag catalog), threading the mutated tag catalog. -/
def annotateFilters (tags : List Tag) : List Filter → List (Filter × List Nat) × List Tag
  | [] => ([], tags)
  | f :: fs =>
    ((f, (collectTagsDetails tags f.tags).1) ::
        (annotateFilters (collectTagsDetails tags f.tags).2 fs).1,
     (annotateFilters (collectTagsDetails tags f.tags).2 fs).2)

/-- `getFilters` from `filters-categories.js`: the non-removed catalog filters
annotated with `tagsDetails`, plus the tag catalog as mutated by the keyword
stripping. -/
def getFiltersCat (filters : List Filter) (tags : List Tag) :
    List (Filter × List Nat) × List Tag :=
  annotateFilters tags (filters.filter (fun f => !f.removed))

/-- `getFiltersMetadata` from `filters-categories.js`: categories are the
catalog groups each paired with the visible filters of its group (built from a
first `getFilters` run); the returned `filters` field comes from a second
`getFilters` run made when the result object is constructed. -/
def getFiltersMetadataCat (filters : List Filter) (groups : List Group)
    (tags : List Tag) :
    List (Filter × List Nat) × List (Group × List (Filter × List Nat)) × List Tag :=
  let (fs1, tags1) := getFiltersCat filters tags
  let categories := groups.map (fun g => (g, fs1.filter (fun fd => fd.1.groupId = g.groupId)))
  let (fs2, tags2) := getFiltersCat filters tags1
  (fs2, categories, tags2)

/-- `getRecommendedFilterIdsByGroupId` from `filters-categories.js`: the first
category matching the group id contributes the ids of its filters passing
`isOfferedFilter`; an absent group yields `[]`.  The mutated tag catalog is
returned alongside (the JS tag objects are shared state). -/
def getRecommendedFilterIdsByGroupId (env : Env) (filters : List Filter)
    (groups : List Group) (tags : List Tag) (groupId : Nat) : List Nat × List Tag :=
  let md := getFiltersMetadataCat filters groups tags
  let tags2 := md.2.2
  match md.2.1.find? (fun c => c.1.groupId = groupId) with
  | none => ([], tags2)
  | some c =>
      (((c.2.filter (fun fd =>
          isOfferedFilter env tags2 fd.1 env.langSuitableFilters env.safariFilterId)).map
        (fun fd => fd.1.filterId)), tags2)

/-! ## Filter Lifecycle Manager (the filters manager module) -/

/-- The shared mutable state: the subscription catalog's filters and groups,
the tag catalog, and the persisted filter state store. -/
structure MState where
  filters : List Filter
  groups : List Group
  tags : List Tag
  store : List (Nat × StateInfo)
deriving DecidableEq, Repr

/-- `subscriptions.getFilter(filterId)`. -/
def getFilterSt (st : MState) (filterId : Nat) : Option Filter :=
  findBy Filter.filterId filterId st.filters

/-- `subscriptions.getGroup(groupId)`. -/
def getGroupSt (st : MState) (groupId : Nat) : Option Group :=
  findBy Group.groupId groupId st.groups

/-- Whether a filter id is present in the catalog. -/
def present (st : MState) (filterId : Nat) : Bool :=
  (getFilterSt st filterId).isSome

/-- Modelled from the spec: `subscriptions.groupHasEnabledStatus` lives in the
missing `subscriptions.js`; per the spec it reports whether the group has ever
been explicitly toggled, i.e. whether `group.enabled` is defined. -/
def groupHasEnabledStatus (st : MState) (groupId : Nat) : Bool :=
  match getGroupSt st groupId with
  | some g => g.enabled.isSome
  | none => false

/-- Modelled from the spec: persistence of flags is the state store's missing
listener code; per the spec the canonical write path is "mutate in-memory flag
→ notify listeners → external store persists on event", so emitting a filter
event snapshots the filter's current flags into the store. -/
def persistFilter (st : MState) (filterId : Nat) : MState :=
  match getFilterSt st filterId with
  | none => st
  | some f =>
      { st with store := storeSet st.store filterId ⟨f.enabled, f.installed, f.loaded⟩ }

/-- `isFilterEnabled` from the filters manager: requires both catalog presence
and an enabled persisted state-store entry. -/
def isFilterEnabled (st : MState) (filterId : Nat) : Bool :=
  (getFilterSt st filterId).isSome &&
    (match storeGet st.store filterId with
     | some si => si.enabled
     | none => false)

/-- `isGroupEnabled` from the filters manager (`group && group.enabled`,
reduced to its truthiness). -/
def isGroupEnabled (st : MState) (groupId : Nat) : Bool :=
  match getGroupSt st groupId with
  | some g => g.enabled = some true
  | none => false

/-- `enableGroup` from the filters manager: no-op when the group is absent or
`group.enabled` is truthy; otherwise set it `true` and emit
`FILTER_GROUP_ENABLE_DISABLE`. -/
def enableGroup (st : MState) (groupId : Nat) : MState × List Action :=
  match getGroupSt st groupId with
  | none => (st, [])
  | some g =>
      if g.enabled = some true then (st, [])
      else
        ({ st with groups := (updateBy Group.groupId groupId
              (fun g0 => { g0 with enabled := some true }) st.groups) },
         [.event (.filterGroupEnableDisable groupId)])

/-- The implicit group-enable step inside `enableFilter`: "we enable group if
it was never enabled or disabled early". -/
def maybeEnableGroup (st : MState) (groupId : Nat) : MState × List Action :=
  if groupHasEnabledStatus st groupId then (st, [])
  else enableGroup st groupId

/-- `enableFilter` from the filters manager: no-op when the state store already
reports the filter enabled; otherwise set `enabled` on the catalog object,
implicitly enable a never-toggled group, and emit `FILTER_ENABLE_DISABLE`
(whose listener persists the flags).  `none` models the `TypeError` the JS
raises when the filter is absent (`subscriptions.getFilter` returns
`undefined` unchecked). -/
def enableFilter (st : MState) (filterId : Nat) : Option (MState × List Action) :=
  if isFilterEnabled st filterId then some (st, [])
  else
    match getFilterSt st filterId with
    | none => none
    | some filter =>
      some (persistFilter
              (maybeEnableGroup { st with filters := (updateBy Filter.filterId filterId
                  (fun f => { f with enabled := true }) st.filters) } filter.groupId).1
              filterId,
            (maybeEnableGroup { st with filters := (updateBy Filter.filterId filterId
                (fun f => { f with enabled := true }) st.filters) } filter.groupId).2
              ++ [.event (.filterEnableDisable filterId)])

/-- `onFilterLoaded` from `addAntiBannerFilter`: on success mark the filter
installed and emit `FILTER_ADD_REMOVE` (persisting the flags); on failure do
nothing.  The surrounding callback invocation is handled by the caller. -/
def onFilterLoaded (st : MState) (filterId : Nat) (success : Bool) :
    MState × List Action :=
  if success then
    let st1 := { st with filters := (updateBy Filter.filterId filterId
                  (fun f => { f with installed := true }) st.filters) }
    (persistFilter st1 filterId, [.event (.filterAddRemove filterId)])
  else (st, [])

/-- `addAntiBannerFilter` from the filters manager: `none` models the thrown
`'Filter with id ... not found'` of `getFilterById`; otherwise the returned
Boolean is the value passed to the done-callback.  A loader invocation is
recorded as `loadStart`/`loadDone` actions around the (synchronously modelled)
completion callback. -/
def addAntiBannerFilter (env : Env) (st : MState) (filterId : Nat) :
    Option (MState × List Action × Bool) :=
  match getFilterSt st filterId with
  | none => none
  | some filter =>
    if filter.installed then some (st, [], true)
    else if filter.loaded then
      let (st1, tr1) := onFilterLoaded st filterId true
      some (st1, tr1, true)
    else
      let success := env.loadOutcome filterId
      let (st1, tr1) := onFilterLoaded st filterId success
      some (st1, .loadStart filterId :: .loadDone filterId success :: tr1, success)

/-- Outcome of a callback-driven computation that can end in a thrown JS
exception; both constructors carry the state and trace accumulated so far. -/
inductive JSRes where
  | ok (st : MState) (tr : List Action)
  | thrown (st : MState) (tr : List Action)
deriving DecidableEq, Repr

/-- `loadNextFilter` from `addAndEnableFilters`: pop the next id, load it, on
success enable it, then recurse — the next id's load begins only once the
current id's callback chain has run to completion. -/
def loadNextFilter (env : Env) : List Nat → MState → JSRes
  | [], st => .ok st []
  | filterId :: rest, st =>
    match addAntiBannerFilter env st filterId with
    | none => .thrown st []
    | some (st1, tr1, success) =>
      if success then
        match enableFilter st1 filterId with
        | none => .thrown st1 tr1
        | some (st2, tr2) =>
          match loadNextFilter env rest st2 with
          | .ok st3 tr3 => .ok st3 (tr1 ++ tr2 ++ tr3)
          | .thrown st3 tr3 => .thrown st3 (tr1 ++ tr2 ++ tr3)
      else
        match loadNextFilter env rest st1 with
        | .ok st3 tr3 => .ok st3 (tr1 ++ tr3)
        | .thrown st3 tr3 => .thrown st3 (tr1 ++ tr3)

/-- Helper for `removeDuplicates`: keep elements not yet seen. -/
def removeDuplicatesAux (seen : List Nat) : List Nat → List Nat
  | [] => []
  | x :: xs =>
    if x ∈ seen then removeDuplicatesAux seen xs
    else x :: removeDuplicatesAux (x :: seen) xs

/-- Modelled from the spec: `collections.removeDuplicates` lives in the missing
`utils/collections.js`; per the spec duplicates are removed with the input
order otherwise preserved (first occurrence kept). -/
def removeDuplicates (l : List Nat) : List Nat :=
  removeDuplicatesAux [] l

/-- `addAndEnableFilters` from the filters manager (the `!filterIds` null-guard
of the source is subsumed by the empty-list guard; callers pass arrays). -/
def addAndEnableFilters (env : Env) (st : MState) (filterIds : List Nat) : JSRes :=
  if filterIds.length = 0 then .ok st []
  else loadNextFilter env (removeDuplicates filterIds) st

/-- One disabling step of `disableFilters`: `filter.enabled = false` followed
by the persisting `FILTER_ENABLE_DISABLE` notification. -/
def disableOne (st : MState) (filterId : Nat) : MState :=
  persistFilter { st with filters := (updateBy Filter.filterId filterId
    (fun f => { f with enabled := false }) st.filters) } filterId

/-- `disableFilters` from the filters manager: walk the deduplicated ids,
returning at the first one the state store does not report enabled; otherwise
clear `enabled` and emit `FILTER_ENABLE_DISABLE`. -/
def disableFiltersGo (st : MState) : List Nat → MState × List Action
  | [] => (st, [])
  | filterId :: rest =>
    if isFilterEnabled st filterId then
      ((disableFiltersGo (disableOne st filterId) rest).1,
       .event (.filterEnableDisable filterId) ::
         (disableFiltersGo (disableOne st filterId) rest).2)
    else (st, [])

/-- `disableFilters` entry point. -/
def disableFilters (st : MState) (filterIds : List Nat) : MState × List Action :=
  disableFiltersGo st (removeDuplicates filterIds)

/-- Truthiness of `filter.customUrl` (`undefined` and the empty string are
falsy in JS). -/
def hasCustomUrl (f : Filter) : Bool :=
  match f.customUrl with
  | none => false
  | some s => !(s = "")

/-- `removeFilter` from the filters manager: silently return on an absent,
already-removed or non-custom filter; otherwise clear `enabled`/`installed`,
set `removed` and emit both `FILTER_ENABLE_DISABLE` and `FILTER_ADD_REMOVE`. -/
def removeFilter (st : MState) (filterId : Nat) : MState × List Action :=
  match getFilterSt st filterId with
  | none => (st, [])
  | some filter =>
    if filter.removed then (st, [])
    else if !hasCustomUrl filter then (st, [])
    else
      let st1 := { st with filters := (updateBy Filter.filterId filterId
                    (fun f => { f with enabled := false, installed := false, removed := true })
                    st.filters) }
      let st2 := persistFilter st1 filterId
      (st2, [.event (.filterEnableDisable filterId), .event (.filterAddRemove filterId)])

/-- `enableFiltersGroup` from the filters manager: when the group exists and
`group.enabled` is still undefined, seed the group's recommended filters
through `addAndEnableFilters` (threading the tag catalog the category selector
mutates), then `enableGroup`. -/
def enableFiltersGroup (env : Env) (st : MState) (groupId : Nat) : JSRes :=
  match getGroupSt st groupId with
  | some g =>
    if g.enabled = none then
      match addAndEnableFilters env
          { st with tags := (getRecommendedFilterIdsByGroupId env st.filters
              st.groups st.tags groupId).2 }
          (getRecommendedFilterIdsByGroupId env st.filters st.groups st.tags
            groupId).1 with
      | .thrown st2 tr2 => .thrown st2 tr2
      | .ok st2 tr2 =>
          .ok (enableGroup st2 groupId).1 (tr2 ++ (enableGroup st2 groupId).2)
    else
      .ok (enableGroup st groupId).1 (enableGroup st groupId).2
  | none =>
      .ok (enableGroup st groupId).1 (enableGroup st groupId).2

/-- Outcome of `loadCustomFilter`: which callback fired (and with what). -/
inductive CustomOutcome where
  | onError
  | onSuccess (f : Filter)
deriving DecidableEq, Repr

/-- Truthiness of the `url` argument. -/
def strTruthy : Option String → Bool
  | none => false
  | some s => !(s = "")

/-- `loadCustomFilter` from the filters manager, parameterized by the external
`subscriptions.updateCustomFilter` (which registers the custom filter in the
catalog and reports the assigned id, or `none` on failure).  A falsy `url`
invokes the error callback immediately; a reported id has its filter's stale
`removed` flag cleared (`delete filter.removed`) before the success callback;
`none` as overall result models the `TypeError` raised when the reported id is
not in the catalog. -/
def loadCustomFilter (upd : String → MState → Option Nat × MState)
    (st : MState) (url : Option String) : Option (MState × CustomOutcome) :=
  if strTruthy url = false then some (st, .onError)
  else
    match upd (url.getD "") st with
    | (none, st1) => some (st1, .onError)
    | (some filterId, st1) =>
      match getFilterSt st1 filterId with
      | none => none
      | some f =>
        let f' := { f with removed := false }
        let st2 := { st1 with filters := (updateBy Filter.filterId filterId
                      (fun f0 => { f0 with removed := false }) st1.filters) }
        some (st2, .onSuccess f')

/-! ## Concrete example inputs used by witnesses and counterexamples -/

/-- An environment whose platform-mandated (Safari) filter id is 12. -/
def envPlat : Env :=
  { safariFilterId := 12, langSuitableFilters := [], isMobileDevice := none,
    loadOutcome := fun _ => true }

/-- A filter with the platform id but no tags at all (so no recommended tag). -/
def safariNoTagFilter : Filter :=
  { filterId := 12, groupId := 7, tags := [], languages := [], customUrl := none,
    enabled := false, installed := false, loaded := false, removed := false }

/-- A catalog with the single group 7. -/
def groupsPlat : List Group := [{ groupId := 7, enabled := none }]

/-- How one tag evolves under the in-place keyword stripping performed by the
categories module's `getFilters`: the id never changes, and the keyword is
either untouched or (for a keyword that is neither `reference:`- nor
`lang:`-prefixed) stripped of its first namespace prefix. -/
def kwEvolved (t0 t : Tag) : Prop :=
  t.tagId = t0.tagId ∧
  (t.keyword = t0.keyword ∨
    (t.keyword = stripTagPrefix t0.keyword ∧
     kwStartsWith t0.keyword "reference:" = false ∧
     kwStartsWith t0.keyword "lang:" = false))

/-- Pointwise evolution of the shared tag catalog. -/
def TagsEvolved (tags0 tags : List Tag) : Prop :=
  List.Forall₂ kwEvolved tags0 tags

/-- In catalog `tags`, tag `tid` now carries the (colon-free) stripped form of
the original tag `t0`'s keyword. -/
def Stripped (tags : List Tag) (tid : Nat) (t0 : Tag) : Prop :=
  ∃ t, findBy Tag.tagId tid tags = some t ∧
    t.keyword = stripTagPrefix t0.keyword ∧ colonCount t.keyword = 0

/-- A filter carrying one tag id twice, where that tag's keyword holds two
colons — the input exhibiting the double-stripping of the shared tag object. -/
def fMulti : Filter :=
  { filterId := 1, groupId := 7, tags := [1, 1], languages := [], customUrl := none,
    enabled := false, installed := false, loaded := false, removed := false }

/-- The two-colon tag catalog for the C6 counterexample. -/
def tagsMulti : List Tag := [{ tagId := 1, keyword := "a:b:c" }]

/-- A filter carrying a `lang:` tag, a `group:` tag, a `reference:` tag and a
dangling tag id. -/
def fTagsW : Filter :=
  { filterId := 3, groupId := 7, tags := [1, 2, 3, 4], languages := [], customUrl := none,
    enabled := false, installed := false, loaded := false, removed := false }

/-- The tag catalog for the C6 witness (no entry for tag id 4). -/
def tagsW : List Tag :=
  [{ tagId := 1, keyword := "lang:en" },
   { tagId := 2, keyword := "group:custom" },
   { tagId := 3, keyword := "reference:doc" }]

/-- A plain catalog filter with the given ids and all flags clear. -/
def mkFilter (fid gid : Nat) : Filter :=
  { filterId := fid, groupId := gid, tags := [], languages := [], customUrl := none,
    enabled := false, installed := false, loaded := false, removed := false }

/-- State for the `disableFilters` witness: filters 1 and 3 enabled in the
state store, filter 2 not. -/
def stDis : MState :=
  { filters := [mkFilter 1 7, mkFilter 2 7, mkFilter 3 7],
    groups := [{ groupId := 7, enabled := some true }],
    tags := [],
    store := [(1, ⟨true, false, false⟩), (3, ⟨true, false, false⟩)] }

/-- State for the `removeFilter` witness: filter 5 is a custom filter, filter 6
is not. -/
def stRem : MState :=
  { filters := [{ mkFilter 5 7 with customUrl := some "https://example.org/l.txt" },
                mkFilter 6 7],
    groups := [{ groupId := 7, enabled := some true }],
    tags := [],
    store := [] }

/-- State with filter 5 already enabled in the state store (the `enableFilter`
counterexample input). -/
def stEnOn : MState :=
  { filters := [mkFilter 5 7],
    groups := [{ groupId := 7, enabled := some true }],
    tags := [],
    store := [(5, ⟨true, false, false⟩)] }

/-- State with filter 5 present but not enabled (the `enableFilter` witness
input). -/
def stEnOff : MState :=
  { filters := [mkFilter 5 7],
    groups := [{ groupId := 7, enabled := some true }],
    tags := [],
    store := [] }

/-- A custom filter, previously removed, as (re-)registered by the external
custom-filter registration. -/
def fCustom7 : Filter :=
  { mkFilter 7 9 with customUrl := some "https://example.org/c.txt", removed := true }

/-- A concrete `subscriptions.updateCustomFilter` behaviour: registers
`fCustom7` and reports id 7. -/
def updOk : String → MState → Option Nat × MState :=
  fun _ st => (some 7, { st with filters := [fCustom7] })

/-- A concrete failing `subscriptions.updateCustomFilter`. -/
def updFail : String → MState → Option Nat × MState :=
  fun _ st => (none, st)

/-- The empty state. -/
def stEmpty : MState :=
  { filters := [], groups := [], tags := [], store := [] }

/-- State for the sequential-batch witness: filters 1 and 2, never loaded. -/
def stSeq : MState :=
  { filters := [mkFilter 1 7, mkFilter 2 7],
    groups := [{ groupId := 7, enabled := none }],
    tags := [],
    store := [] }

/-- Environment whose external loader fails for filter 1 and succeeds for
every other filter. -/
def envSeq : Env :=
  { safariFilterId := 99, langSuitableFilters := [], isMobileDevice := none,
    loadOutcome := fun i => i ≠ 1 }

/-- State for the thrown-batch witness: filters 1 and 3 exist, 2 does not. -/
def stAbs : MState :=
  { filters := [mkFilter 1 7, mkFilter 3 7],
    groups := [{ groupId := 7, enabled := some true }],
    tags := [],
    store := [] }

/-- A never-toggled group with no member filters. -/
def stC2 : MState :=
  { filters := [], groups := [{ groupId := 10, enabled := none }], tags := [],
    store := [] }

/-- `stC2` after its group has been enabled. -/
def stC2on : MState :=
  { filters := [], groups := [{ groupId := 10, enabled := some true }], tags := [],
    store := [] }

/-- A never-toggled group 10 whose single member filter 4 carries the
recommended tag. -/
def stC2seed : MState :=
  { filters := [{ mkFilter 4 10 with tags := [1] }],
    groups := [{ groupId := 10, enabled := none }],
    tags := [{ tagId := 1, keyword := "recommended" }],
    store := [] }

/-! ## Basic lemmas about the list-state helpers -/

theorem findBy_updateBy_of_ne {α : Type} {key : α → Nat} {g : α → α}
    (hg : ∀ a, key (g a) = key a) {j k : Nat} (hne : j ≠ k) :
    ∀ l : List α, findBy key j (updateBy key k g l) = findBy key j l := by
  intro l
  induction l with
  | nil => rfl
  | cons a rest ih =>
    simp only [updateBy]
    by_cases hak : key a = k
    · have h1 : ¬ (key (g a) = j) := by
        rw [hg a, hak]; exact fun h => hne h.symm
      have h2 : ¬ (key a = j) := by
        rw [hak]; exact fun h => hne h.symm
      have h3 : ¬ (k = j) := fun h => hne h.symm
      simp only [hak, if_true, findBy, List.find?_cons, decide_eq_false h1,
        decide_eq_false h2, decide_eq_false h3]
    · by_cases haj : key a = j
      · simp only [hak, if_false, findBy, List.find?_cons, decide_eq_true haj]
      · simp only [hak, if_false, findBy, List.find?_cons, decide_eq_false haj]
        exact ih

theorem findBy_updateBy_self {α : Type} {key : α → Nat} {g : α → α}
    (hg : ∀ a, key (g a) = key a) {k : Nat} {a : α} :
    ∀ l : List α, findBy key k l = some a →
      findBy key k (updateBy key k g l) = some (g a) := by
  intro l
  induction l with
  | nil => intro h; simp [findBy] at h
  | cons b rest ih =>
    intro h
    by_cases hbk : key b = k
    · have hb : b = a := by
        have := h
        simp only [findBy, List.find?_cons, decide_eq_true hbk] at this
        exact Option.some.inj this
      subst hb
      have hgb : key (g b) = k := by rw [hg b]; exact hbk
      simp only [updateBy, hbk, if_true, findBy, List.find?_cons, decide_eq_true hgb]
    · have h' : findBy key k rest = some a := by
        have := h
        simp only [findBy, List.find?_cons, decide_eq_false hbk] at this
        exact this
      simp only [updateBy, hbk, if_false, findBy, List.find?_cons, decide_eq_false hbk]
      exact ih h'

theorem map_key_updateBy {α : Type} {key : α → Nat} {g : α → α}
    (hg : ∀ a, key (g a) = key a) (k : Nat) :
    ∀ l : List α, (updateBy key k g l).map key = l.map key := by
  intro l
  induction l with
  | nil => rfl
  | cons b rest ih =>
    by_cases hbk : key b = k
    · simp [updateBy, hbk, hg b]
    · simp [updateBy, hbk, ih]

theorem findBy_isSome_iff_mem {α : Type} {key : α → Nat} {k : Nat} :
    ∀ l : List α, (findBy key k l).isSome = true ↔ k ∈ l.map key := by
  intro l
  induction l with
  | nil => simp [findBy]
  | cons b rest ih =>
    simp only [List.map_cons, List.mem_cons]
    by_cases hbk : key b = k
    · simp only [findBy, List.find?_cons, decide_eq_true hbk, Option.isSome_some,
        true_iff]
      exact Or.inl hbk.symm
    · simp only [findBy, List.find?_cons, decide_eq_false hbk]
      constructor
      · exact fun h => Or.inr (ih.1 h)
      · intro h
        cases h with
        | inl h => exact absurd h.symm hbk
        | inr h => exact ih.2 h

theorem findBy_eq_some_mem {α : Type} {key : α → Nat} {k : Nat} {a : α} :
    ∀ {l : List α}, findBy key k l = some a → a ∈ l ∧ key a = k := by
  intro l
  induction l with
  | nil => intro h; simp [findBy] at h
  | cons b rest ih =>
    intro h
    by_cases hbk : key b = k
    · have hb : b = a := by
        have := h
        simp only [findBy, List.find?_cons, decide_eq_true hbk] at this
        exact Option.some.inj this
      subst hb
      exact ⟨List.mem_cons_self _ _, hbk⟩
    · have h' : findBy key k rest = some a := by
        have := h
        simp only [findBy, List.find?_cons, decide_eq_false hbk] at this
        exact this
      exact ⟨List.mem_cons_of_mem _ (ih h').1, (ih h').2⟩

theorem storeGet_storeSet_self (l : List (Nat × StateInfo)) (k : Nat) (v : StateInfo) :
    storeGet (storeSet l k v) k = some v := by
  induction l with
  | nil => simp [storeSet, storeGet]
  | cons p rest ih =>
    cases p with
    | mk k' v' =>
      by_cases hpk : k' = k
      · subst hpk
        simp [storeSet, storeGet, List.find?_cons]
      · simp only [storeSet, hpk, if_false, storeGet, List.find?_cons,
          decide_eq_false hpk]
        exact ih

theorem storeGet_storeSet_of_ne {j k : Nat} (hne : j ≠ k)
    (l : List (Nat × StateInfo)) (v : StateInfo) :
    storeGet (storeSet l k v) j = storeGet l j := by
  have hkj : ¬ (k = j) := fun h => hne h.symm
  induction l with
  | nil => simp [storeSet, storeGet, List.find?_cons, decide_eq_false hkj]
  | cons p rest ih =>
    cases p with
    | mk k' v' =>
      by_cases hpk : k' = k
      · subst hpk
        simp only [storeSet, if_true, storeGet, List.find?_cons,
          decide_eq_false hkj, decide_eq_false (fun h => hne (h : k' = j).symm)]
      · simp only [storeSet, hpk, if_false]
        by_cases hpj : k' = j
        · simp [storeGet, List.find?_cons, decide_eq_true hpj]
        · simp only [storeGet, List.find?_cons, decide_eq_false hpj]
          exact ih

/-! ## Lemmas about `removeDuplicates` -/

theorem mem_of_mem_removeDuplicatesAux :
    ∀ (l seen : List Nat) {x : Nat}, x ∈ removeDuplicatesAux seen l → x ∈ l := by
  intro l
  induction l with
  | nil => intro seen x h; simp [removeDuplicatesAux] at h
  | cons y ys ih =>
    intro seen x h
    rw [removeDuplicatesAux] at h
    by_cases hy : y ∈ seen
    · rw [if_pos hy] at h
      exact List.mem_cons_of_mem _ (ih seen h)
    · rw [if_neg hy] at h
      cases List.mem_cons.mp h with
      | inl he => exact he ▸ List.mem_cons_self _ _
      | inr he => exact List.mem_cons_of_mem _ (ih _ he)

theorem mem_of_mem_removeDuplicates (l : List Nat) (x : Nat)
    (h : x ∈ removeDuplicates l) : x ∈ l :=
  mem_of_mem_removeDuplicatesAux l [] h

theorem removeDuplicatesAux_spec :
    ∀ (l seen : List Nat), (removeDuplicatesAux seen l).Nodup ∧
      ∀ x ∈ removeDuplicatesAux seen l, x ∉ seen := by
  intro l
  induction l with
  | nil =>
    intro seen
    exact ⟨List.nodup_nil, fun x hx => absurd hx (List.not_mem_nil x)⟩
  | cons y ys ih =>
    intro seen
    rw [removeDuplicatesAux]
    by_cases hy : y ∈ seen
    · rw [if_pos hy]
      exact ih seen
    · rw [if_neg hy]
      obtain ⟨hnd, hdis⟩ := ih (y :: seen)
      refine ⟨List.nodup_cons.mpr ⟨?_, hnd⟩, ?_⟩
      · intro hmem
        exact hdis y hmem (List.mem_cons_self _ _)
      · intro x hx
        cases List.mem_cons.mp hx with
        | inl he => exact he ▸ hy
        | inr he => exact fun hs => hdis x he (List.mem_cons_of_mem _ hs)

theorem nodup_removeDuplicates (l : List Nat) : (removeDuplicates l).Nodup :=
  (removeDuplicatesAux_spec l []).1

/-! ## Lemmas about the category selector -/

/-- Unfolding of `annotateFilters` on a cons (a `rfl` thanks to structure eta). -/
theorem annotateFilters_cons (tags : List Tag) (f : Filter) (fs : List Filter) :
    annotateFilters tags (f :: fs) =
      ((f, (collectTagsDetails tags f.tags).1) ::
          (annotateFilters (collectTagsDetails tags f.tags).2 fs).1,
        (annotateFilters (collectTagsDetails tags f.tags).2 fs).2) := rfl

/-- Unfolding of `getFiltersMetadataCat` (a `rfl` thanks to structure eta). -/
theorem getFiltersMetadataCat_eq (filters : List Filter) (groups : List Group)
    (tags : List Tag) :
    getFiltersMetadataCat filters groups tags =
      ((getFiltersCat filters (getFiltersCat filters tags).2).1,
       groups.map (fun g => (g, (getFiltersCat filters tags).1.filter
          (fun fd => fd.1.groupId = g.groupId))),
       (getFiltersCat filters (getFiltersCat filters tags).2).2) := rfl

/-- Unfolding of `getRecommendedFilterIdsByGroupId`, with the category match
split off the tag-catalog component. -/
theorem getRecommendedFilterIds_eq (env : Env) (filters : List Filter)
    (groups : List Group) (tags : List Tag) (groupId : Nat) :
    getRecommendedFilterIdsByGroupId env filters groups tags groupId =
      ((match (getFiltersMetadataCat filters groups tags).2.1.find?
            (fun c => c.1.groupId = groupId) with
        | none => []
        | some c =>
            (c.2.filter (fun fd =>
              isOfferedFilter env (getFiltersMetadataCat filters groups tags).2.2 fd.1
                env.langSuitableFilters env.safariFilterId)).map
              (fun fd => fd.1.filterId)),
       (getFiltersMetadataCat filters groups tags).2.2) := by
  rw [getRecommendedFilterIdsByGroupId]
  cases (getFiltersMetadataCat filters groups tags).2.1.find?
      (fun c => c.1.groupId = groupId) with
  | none => rfl
  | some c => rfl

theorem mem_annotateFilters {fs : List Filter} :
    ∀ (tags : List Tag) {fd : Filter × List Nat},
      fd ∈ (annotateFilters tags fs).1 → fd.1 ∈ fs := by
  induction fs with
  | nil => intro tags fd h; simp [annotateFilters] at h
  | cons f fs ih =>
    intro tags fd h
    have h' : fd ∈ (f, (collectTagsDetails tags f.tags).1) ::
        (annotateFilters (collectTagsDetails tags f.tags).2 fs).1 := h
    cases List.mem_cons.mp h' with
    | inl h2 =>
      subst h2
      exact List.mem_cons_self _ _
    | inr h2 =>
      exact List.mem_cons_of_mem _ (ih _ h2)

theorem mem_getFiltersCat {filters : List Filter} {tags : List Tag}
    {fd : Filter × List Nat} (h : fd ∈ (getFiltersCat filters tags).1) :
    fd.1 ∈ filters ∧ fd.1.removed = false := by
  have h1 := mem_annotateFilters _ h
  have h2 := List.mem_filter.mp h1
  refine ⟨h2.1, ?_⟩
  have := h2.2
  simp at this
  exact this

/-- A traced `isOfferedFilter = true` is explained by the platform id or the
recommended tag. -/
theorem isOfferedFilter_true_cases {env : Env} {tags : List Tag} {f : Filter}
    {lang : List Nat} {sid : Nat}
    (h : isOfferedFilter env tags f lang sid = true) :
    sid = f.filterId ∨ isRecommendedFilter tags f = true := by
  by_cases hs : sid = f.filterId
  · exact Or.inl hs
  · right
    by_cases hr : isRecommendedFilter tags f = true
    · exact hr
    · exfalso
      rw [Bool.not_eq_true] at hr
      rw [isOfferedFilter, if_neg hs, hr] at h
      simp at h

/-! ## C4 — the platform-mandated filter is always offered -/

/-- C4: for every filter and language-suitable list, `isOfferedFilter` returns
`true` whenever the filter's id equals the platform filter id, regardless of
the recommended tag, languages or the mobile check. -/
theorem isOfferedFilter_platform_always (env : Env) (tags : List Tag) (f : Filter)
    (langSuitableFilterIds : List Nat) (platformFilterId : Nat)
    (h : f.filterId = platformFilterId) :
    isOfferedFilter env tags f langSuitableFilterIds platformFilterId = true := by
  rw [isOfferedFilter, if_pos h.symm]

/-- Witness for C4 at a concrete non-recommended filter. -/
theorem isOfferedFilter_platform_always_witness :
    safariNoTagFilter.filterId = 12 ∧
    isOfferedFilter envPlat [] safariNoTagFilter [] 12 = true :=
  ⟨by decide, isOfferedFilter_platform_always envPlat [] safariNoTagFilter [] 12 (by decide)⟩

/-! ## C5 — recommended filters by group id -/

/-- C5 counterexample: with the platform (Safari) filter placed in group 7 and
carrying no tag at all, `getRecommendedFilterIdsByGroupId` still returns its
id, so a filter with no recommended tag can be an element of the result. -/
theorem getRecommendedFilterIds_nonrecommended_counterexample :
    (getRecommendedFilterIdsByGroupId envPlat [safariNoTagFilter] groupsPlat [] 7).1
      = [12] ∧
    (∀ f ∈ [safariNoTagFilter],
      isRecommendedFilter
        (getRecommendedFilterIdsByGroupId envPlat [safariNoTagFilter] groupsPlat [] 7).2 f
        = false) := by
  decide

/-- C5 (amended): every filter id returned by
`getRecommendedFilterIdsByGroupId` either is the configured platform (Safari)
filter id or belongs to a catalog filter carrying the recommended tag (as read
from the tag catalog the run leaves behind). -/
theorem getRecommendedFilterIds_recommended_or_platform
    (env : Env) (filters : List Filter) (groups : List Group) (tags : List Tag)
    (groupId : Nat) {fid : Nat}
    (h : fid ∈ (getRecommendedFilterIdsByGroupId env filters groups tags groupId).1) :
    fid = env.safariFilterId ∨
      ∃ f ∈ filters, f.filterId = fid ∧
        isRecommendedFilter
          (getRecommendedFilterIdsByGroupId env filters groups tags groupId).2 f = true := by
  rw [getRecommendedFilterIds_eq] at h ⊢
  cases hfind : (getFiltersMetadataCat filters groups tags).2.1.find?
      (fun c => c.1.groupId = groupId) with
  | none =>
    rw [hfind] at h
    have h' : fid ∈ ([] : List Nat) := h
    simp at h'
  | some c =>
    rw [hfind] at h
    have h' : fid ∈ (c.2.filter (fun fd =>
        isOfferedFilter env (getFiltersMetadataCat filters groups tags).2.2 fd.1
          env.langSuitableFilters env.safariFilterId)).map
          (fun fd => fd.1.filterId) := h
    show fid = env.safariFilterId ∨
      ∃ f ∈ filters, f.filterId = fid ∧
        isRecommendedFilter (getFiltersMetadataCat filters groups tags).2.2 f = true
    simp only [List.mem_map, List.mem_filter] at h'
    obtain ⟨fd, ⟨hfd, hoff⟩, hfid⟩ := h'
    cases isOfferedFilter_true_cases (show _ = true by simpa using hoff) with
    | inl hs => exact Or.inl (hfid ▸ hs).symm
    | inr hr =>
      right
      refine ⟨fd.1, ?_, hfid, hr⟩
      -- fd belongs to the found category, whose filters come from the catalog
      have hcmem : c ∈ (getFiltersMetadataCat filters groups tags).2.1 :=
        List.mem_of_find?_eq_some hfind
      have hcat : (getFiltersMetadataCat filters groups tags).2.1 =
          groups.map (fun g => (g, (getFiltersCat filters tags).1.filter
            (fun fd => fd.1.groupId = g.groupId))) := rfl
      rw [hcat] at hcmem
      simp only [List.mem_map] at hcmem
      obtain ⟨g, _, hgc⟩ := hcmem
      have hfd2 : fd ∈ (getFiltersCat filters tags).1.filter
          (fun fd => fd.1.groupId = g.groupId) := by
        rw [← hgc] at hfd
        exact hfd
      exact (mem_getFiltersCat (List.mem_of_mem_filter hfd2)).1

/-- Witness for the amended C5 at the concrete platform-filter catalog. -/
theorem getRecommendedFilterIds_recommended_or_platform_witness :
    (12 ∈ (getRecommendedFilterIdsByGroupId envPlat [safariNoTagFilter]
        groupsPlat [] 7).1) ∧
    (12 = envPlat.safariFilterId ∨
      ∃ f ∈ [safariNoTagFilter], f.filterId = 12 ∧
        isRecommendedFilter
          (getRecommendedFilterIdsByGroupId envPlat [safariNoTagFilter]
            groupsPlat [] 7).2 f = true) :=
  ⟨by decide,
    getRecommendedFilterIds_recommended_or_platform envPlat [safariNoTagFilter]
      groupsPlat [] 7 (by decide)⟩

/-! ## String lemmas for the keyword transformation -/

theorem dropThroughColon_eq_none {cs : List Char} (h : ':' ∉ cs) :
    dropThroughColon cs = none := by
  induction cs with
  | nil => rfl
  | cons c rest ih =>
    have hc : ¬ (c = ':') := fun he => h (he ▸ List.mem_cons_self c rest)
    simp only [dropThroughColon, if_neg hc]
    exact ih (fun hm => h (List.mem_cons_of_mem _ hm))

theorem dropThroughColon_isSome {cs : List Char} (h : ':' ∈ cs) :
    ∃ rest, dropThroughColon cs = some rest := by
  induction cs with
  | nil => simp at h
  | cons c rest ih =>
    by_cases hc : c = ':'
    · exact ⟨rest, by simp [dropThroughColon, hc]⟩
    · have hm : ':' ∈ rest := by
        cases List.mem_cons.mp h with
        | inl h2 => exact absurd h2.symm hc
        | inr h2 => exact h2
      obtain ⟨r, hr⟩ := ih hm
      exact ⟨r, by simp only [dropThroughColon, if_neg hc]; exact hr⟩

theorem count_dropThroughColon :
    ∀ {cs rest : List Char}, dropThroughColon cs = some rest →
      rest.count ':' + 1 ≤ cs.count ':' := by
  intro cs
  induction cs with
  | nil => intro rest h; simp [dropThroughColon] at h
  | cons c cs' ih =>
    intro rest h
    by_cases hc : c = ':'
    · have hr : cs' = rest := by
        simpa [dropThroughColon, hc] using h
      subst hr
      simp [List.count_cons, hc]
    · have h' : dropThroughColon cs' = some rest := by
        simpa [dropThroughColon, hc] using h
      have := ih h'
      simp only [List.count_cons]
      have hbc : ¬ (c == ':') = true := by simpa using hc
      simp [hbc]
      omega

theorem strip_of_colonFree {s : String} (h : colonCount s = 0) :
    stripTagPrefix s = s := by
  have hmem : ':' ∉ s.data := List.count_eq_zero.mp h
  rw [stripTagPrefix, dropThroughColon_eq_none hmem]
  rfl

theorem colonCount_strip_le (s : String) :
    colonCount (stripTagPrefix s) ≤ colonCount s := by
  by_cases hm : ':' ∈ s.data
  · obtain ⟨rest, hr⟩ := dropThroughColon_isSome hm
    have hc := count_dropThroughColon hr
    rw [stripTagPrefix, hr]
    show rest.count ':' ≤ colonCount s
    rw [colonCount]
    omega
  · rw [strip_of_colonFree (List.count_eq_zero.mpr hm)]

theorem colonCount_strip_eq_zero {s : String} (h : colonCount s ≤ 1) :
    colonCount (stripTagPrefix s) = 0 := by
  by_cases hm : ':' ∈ s.data
  · obtain ⟨rest, hr⟩ := dropThroughColon_isSome hm
    have hc := count_dropThroughColon hr
    rw [stripTagPrefix, hr]
    show rest.count ':' = 0
    rw [colonCount] at h
    omega
  · have h0 : colonCount s = 0 := List.count_eq_zero.mpr hm
    rw [strip_of_colonFree h0]
    exact h0

theorem mem_of_kwStartsWith {s pre : String} (h : kwStartsWith s pre = true)
    {c : Char} (hc : c ∈ pre.data) : c ∈ s.data := by
  rw [kwStartsWith] at h
  exact (List.isPrefixOf_iff_prefix.mp h).subset hc

theorem not_startsWith_of_colonFree {s pre : String} (h : colonCount s = 0)
    (hc : ':' ∈ pre.data) : kwStartsWith s pre = false := by
  by_contra hne
  rw [Bool.not_eq_false] at hne
  exact (List.count_eq_zero.mp h) (mem_of_kwStartsWith hne hc)

theorem lang_not_reference {s : String} (h : kwStartsWith s "lang:" = true) :
    kwStartsWith s "reference:" = false := by
  by_contra hr
  rw [Bool.not_eq_false] at hr
  rw [kwStartsWith] at hr h
  obtain ⟨t1, ht1⟩ := List.isPrefixOf_iff_prefix.mp h
  obtain ⟨t2, ht2⟩ := List.isPrefixOf_iff_prefix.mp hr
  have h1 : s.data.head? = some 'l' := by rw [← ht1]; rfl
  have h2 : s.data.head? = some 'r' := by rw [← ht2]; rfl
  rw [h1] at h2
  simp at h2

/-! ## Evolution of the shared tag catalog under keyword stripping -/

theorem kwEvolved_refl (t : Tag) : kwEvolved t t :=
  ⟨rfl, Or.inl rfl⟩

theorem colonCount_le_of_evolved {t0 t : Tag} (h : kwEvolved t0 t) :
    colonCount t.keyword ≤ colonCount t0.keyword := by
  cases h.2 with
  | inl he => rw [he]
  | inr he => rw [he.1]; exact colonCount_strip_le _

theorem kwEvolved_trans {t0 t1 t2 : Tag} (hc : colonCount t0.keyword ≤ 1)
    (h01 : kwEvolved t0 t1) (h12 : kwEvolved t1 t2) : kwEvolved t0 t2 := by
  refine ⟨h12.1.trans h01.1, ?_⟩
  cases h01.2 with
  | inl he1 =>
    cases h12.2 with
    | inl he2 => exact Or.inl (he2.trans he1)
    | inr he2 => exact Or.inr ⟨by rw [he2.1, he1], by rw [← he1]; exact he2.2.1,
        by rw [← he1]; exact he2.2.2⟩
  | inr he1 =>
    cases h12.2 with
    | inl he2 => exact Or.inr ⟨he2.trans he1.1, he1.2.1, he1.2.2⟩
    | inr he2 =>
      -- t1's keyword is the colon-free stripped form; stripping it again is the identity
      have hz : colonCount t1.keyword = 0 := by
        rw [he1.1]; exact colonCount_strip_eq_zero hc
      refine Or.inr ⟨?_, he1.2.1, he1.2.2⟩
      rw [he2.1, strip_of_colonFree hz, he1.1]

theorem tagsEvolved_refl (l : List Tag) : TagsEvolved l l := by
  induction l with
  | nil => exact List.Forall₂.nil
  | cons t rest ih => exact List.Forall₂.cons (kwEvolved_refl t) ih

theorem tagsEvolved_mem_right {l0 l : List Tag} (h : TagsEvolved l0 l) :
    ∀ t ∈ l, ∃ t0 ∈ l0, kwEvolved t0 t := by
  induction h with
  | nil => intro t ht; simp at ht
  | cons hR _ ih =>
    intro t ht
    cases List.mem_cons.mp ht with
    | inl h2 => exact ⟨_, List.mem_cons_self _ _, h2 ▸ hR⟩
    | inr h2 =>
      obtain ⟨t0, ht0, hr⟩ := ih t h2
      exact ⟨t0, List.mem_cons_of_mem _ ht0, hr⟩

theorem tagsEvolved_colonBound {l0 l : List Tag}
    (hcol : ∀ t ∈ l0, colonCount t.keyword ≤ 1) (h : TagsEvolved l0 l) :
    ∀ t ∈ l, colonCount t.keyword ≤ 1 := by
  intro t ht
  obtain ⟨t0, ht0, hr⟩ := tagsEvolved_mem_right h t ht
  exact le_trans (colonCount_le_of_evolved hr) (hcol t0 ht0)

theorem tagsEvolved_trans {l0 l1 l2 : List Tag}
    (hcol : ∀ t ∈ l0, colonCount t.keyword ≤ 1)
    (h01 : TagsEvolved l0 l1) (h12 : TagsEvolved l1 l2) : TagsEvolved l0 l2 := by
  induction h01 generalizing l2 with
  | nil =>
    cases h12
    exact List.Forall₂.nil
  | cons hR hRest ih =>
    cases h12 with
    | cons hR2 hRest2 =>
      refine List.Forall₂.cons ?_ (ih (fun t ht => hcol t (List.mem_cons_of_mem _ ht)) hRest2)
      exact kwEvolved_trans (hcol _ (List.mem_cons_self _ _)) hR hR2

/-- Transport of a `findBy` lookup along catalog evolution. -/
theorem tagsEvolved_findBy {l0 l : List Tag} (h : TagsEvolved l0 l) (tid : Nat) :
    (findBy Tag.tagId tid l0 = none → findBy Tag.tagId tid l = none) ∧
    (∀ t0, findBy Tag.tagId tid l0 = some t0 →
      ∃ t, findBy Tag.tagId tid l = some t ∧ kwEvolved t0 t) := by
  induction h with
  | nil => exact ⟨fun _ => rfl, fun t0 h0 => by simp [findBy] at h0⟩
  | cons hR hRest ih =>
    rename_i a0 a l0' l'
    constructor
    · intro h0
      by_cases hk : a0.tagId = tid
      · exfalso
        simp [findBy, List.find?_cons, decide_eq_true hk] at h0
      · have h0' : findBy Tag.tagId tid l0' = none := by
          simpa [findBy, List.find?_cons, decide_eq_false hk] using h0
        have hk' : ¬ (a.tagId = tid) := by rw [hR.1]; exact hk
        simp only [findBy, List.find?_cons, decide_eq_false hk']
        exact ih.1 h0'
    · intro t0 h0
      by_cases hk : a0.tagId = tid
      · have ha : a0 = t0 := by
          have := h0
          simp only [findBy, List.find?_cons, decide_eq_true hk] at this
          exact Option.some.inj this
        subst ha
        have hk' : a.tagId = tid := by rw [hR.1]; exact hk
        exact ⟨a, by simp [findBy, List.find?_cons, decide_eq_true hk'], hR⟩
      · have h0' : findBy Tag.tagId tid l0' = some t0 := by
          simpa [findBy, List.find?_cons, decide_eq_false hk] using h0
        have hk' : ¬ (a.tagId = tid) := by rw [hR.1]; exact hk
        obtain ⟨t, ht, hr⟩ := ih.2 t0 h0'
        exact ⟨t, by simp only [findBy, List.find?_cons, decide_eq_false hk']; exact ht, hr⟩

/-- A single in-place strip of the first tag matching `tid` is an evolution
step, provided that tag's current keyword is neither `reference:`- nor
`lang:`-prefixed. -/
theorem tagsEvolved_updateBy_strip {l : List Tag} {tid : Nat} {t : Tag}
    (hf : findBy Tag.tagId tid l = some t)
    (href : kwStartsWith t.keyword "reference:" = false)
    (hlang : kwStartsWith t.keyword "lang:" = false) :
    TagsEvolved l (updateBy Tag.tagId tid
      (fun t0 => { t0 with keyword := stripTagPrefix t0.keyword }) l) := by
  induction l with
  | nil => exact List.Forall₂.nil
  | cons b rest ih =>
    by_cases hbk : b.tagId = tid
    · have hb : b = t := by
        have := hf
        simp only [findBy, List.find?_cons, decide_eq_true hbk] at this
        exact Option.some.inj this
      subst hb
      simp only [updateBy, hbk, if_true]
      exact List.Forall₂.cons ⟨hbk.symm, Or.inr ⟨rfl, href, hlang⟩⟩ (tagsEvolved_refl rest)
    · have hf' : findBy Tag.tagId tid rest = some t := by
        have := hf
        simp only [findBy, List.find?_cons, decide_eq_false hbk] at this
        exact this
      simp only [updateBy, hbk, if_false]
      exact List.Forall₂.cons (kwEvolved_refl b) (ih hf')

/-- Colon-free keywords survive any further evolution verbatim. -/
theorem stripped_stable {l l' : List Tag} {tid : Nat} {t0 : Tag}
    (h : TagsEvolved l l') (hs : Stripped l tid t0) : Stripped l' tid t0 := by
  obtain ⟨t, hf, hkw, hz⟩ := hs
  obtain ⟨t', hf', hr⟩ := (tagsEvolved_findBy h tid).2 t hf
  refine ⟨t', hf', ?_, ?_⟩
  · cases hr.2 with
    | inl he => rw [he]; exact hkw
    | inr he => rw [he.1, strip_of_colonFree hz]; exact hkw
  · cases hr.2 with
    | inl he => rw [he]; exact hz
    | inr he => rw [he.1, strip_of_colonFree hz]; exact hz

/-! ## Behaviour of the tagsDetails collection -/

theorem collectTagsDetails_cons_none {tags : List Tag} {tid : Nat} {rest : List Nat}
    (h : findBy Tag.tagId tid tags = none) :
    collectTagsDetails tags (tid :: rest) = collectTagsDetails tags rest := by
  rw [collectTagsDetails, h]

theorem collectTagsDetails_cons_some {tags : List Tag} {tid : Nat} {rest : List Nat}
    {t : Tag} (h : findBy Tag.tagId tid tags = some t) :
    collectTagsDetails tags (tid :: rest) =
      (if kwStartsWith t.keyword "reference:" then collectTagsDetails tags rest
       else if kwStartsWith t.keyword "lang:" then
         (tid :: (collectTagsDetails tags rest).1, (collectTagsDetails tags rest).2)
       else
         (tid :: (collectTagsDetails (updateBy Tag.tagId tid
             (fun t0 => { t0 with keyword := stripTagPrefix t0.keyword }) tags) rest).1,
          (collectTagsDetails (updateBy Tag.tagId tid
             (fun t0 => { t0 with keyword := stripTagPrefix t0.keyword }) tags) rest).2)) := by
  rw [collectTagsDetails, h]

theorem collectTagsDetails_subset :
    ∀ (tl : List Nat) (tags : List Tag) {x : Nat},
      x ∈ (collectTagsDetails tags tl).1 → x ∈ tl := by
  intro tl
  induction tl with
  | nil => intro tags x h; simp [collectTagsDetails] at h
  | cons tid rest ih =>
    intro tags x h
    cases hf : findBy Tag.tagId tid tags with
    | none =>
      rw [collectTagsDetails_cons_none hf] at h
      exact List.mem_cons_of_mem _ (ih tags h)
    | some t =>
      rw [collectTagsDetails_cons_some hf] at h
      by_cases h1 : kwStartsWith t.keyword "reference:" = true
      · rw [if_pos h1] at h
        exact List.mem_cons_of_mem _ (ih tags h)
      · rw [if_neg h1] at h
        by_cases h2 : kwStartsWith t.keyword "lang:" = true
        · rw [if_pos h2] at h
          have h' : x ∈ tid :: (collectTagsDetails tags rest).1 := h
          cases List.mem_cons.mp h' with
          | inl he => exact he ▸ List.mem_cons_self _ _
          | inr he => exact List.mem_cons_of_mem _ (ih tags he)
        · rw [if_neg h2] at h
          have h' : x ∈ tid :: (collectTagsDetails (updateBy Tag.tagId tid
              (fun t0 => { t0 with keyword := stripTagPrefix t0.keyword }) tags) rest).1 := h
          cases List.mem_cons.mp h' with
          | inl he => exact he ▸ List.mem_cons_self _ _
          | inr he => exact List.mem_cons_of_mem _ (ih _ he)

theorem collectTagsDetails_evolves :
    ∀ (tl : List Nat) (tags : List Tag),
      (∀ t ∈ tags, colonCount t.keyword ≤ 1) →
      TagsEvolved tags (collectTagsDetails tags tl).2 := by
  intro tl
  induction tl with
  | nil => intro tags _; exact tagsEvolved_refl tags
  | cons tid rest ih =>
    intro tags hcol
    cases hf : findBy Tag.tagId tid tags with
    | none =>
      rw [collectTagsDetails_cons_none hf]
      exact ih tags hcol
    | some t =>
      rw [collectTagsDetails_cons_some hf]
      by_cases h1 : kwStartsWith t.keyword "reference:" = true
      · rw [if_pos h1]; exact ih tags hcol
      · rw [if_neg h1]
        by_cases h2 : kwStartsWith t.keyword "lang:" = true
        · rw [if_pos h2]
          exact ih tags hcol
        · rw [if_neg h2]
          have h1' : kwStartsWith t.keyword "reference:" = false :=
            Bool.not_eq_true _ ▸ h1
          have h2' : kwStartsWith t.keyword "lang:" = false :=
            Bool.not_eq_true _ ▸ h2
          have hstep := tagsEvolved_updateBy_strip hf h1' h2'
          have hcol1 := tagsEvolved_colonBound hcol hstep
          exact tagsEvolved_trans hcol hstep (ih _ hcol1)

/-- The full behaviour of one `tags.forEach` run of the categories module's
`getFilters`, relative to the original (pre-listing) tag catalog `tags0`:
the catalog only evolves by prefix stripping; a tag id whose original keyword
is `reference:`-prefixed (or which has no catalog entry) is never pushed; every
other looked-up tag id is pushed; and a pushed tag outside the `lang:`
namespace ends up with its keyword stripped of the first prefix. -/
theorem collectTagsDetails_spec (tags0 : List Tag)
    (hcol0 : ∀ t ∈ tags0, colonCount t.keyword ≤ 1) :
    ∀ (tl : List Nat) (tags : List Tag), TagsEvolved tags0 tags →
      TagsEvolved tags0 (collectTagsDetails tags tl).2 ∧
      ∀ tid ∈ tl,
        (findBy Tag.tagId tid tags0 = none → tid ∉ (collectTagsDetails tags tl).1) ∧
        (∀ t0, findBy Tag.tagId tid tags0 = some t0 →
          (kwStartsWith t0.keyword "reference:" = true →
              tid ∉ (collectTagsDetails tags tl).1) ∧
          (kwStartsWith t0.keyword "reference:" = false →
              tid ∈ (collectTagsDetails tags tl).1) ∧
          (kwStartsWith t0.keyword "reference:" = false →
           kwStartsWith t0.keyword "lang:" = false →
              Stripped (collectTagsDetails tags tl).2 tid t0)) := by
  intro tl
  induction tl with
  | nil =>
    intro tags hInv
    exact ⟨hInv, fun tid htid => absurd htid (List.not_mem_nil tid)⟩
  | cons tid' rest ih =>
    intro tags hInv
    cases hf0 : findBy Tag.tagId tid' tags0 with
    | none =>
      have hf : findBy Tag.tagId tid' tags = none := (tagsEvolved_findBy hInv tid').1 hf0
      rw [collectTagsDetails_cons_none hf]
      obtain ⟨hev, hcl⟩ := ih tags hInv
      refine ⟨hev, ?_⟩
      intro tid htid
      cases List.mem_cons.mp htid with
      | inl he =>
        subst he
        refine ⟨?_, ?_⟩
        · intro _ hmem
          exact (hcl tid (collectTagsDetails_subset rest tags hmem)).1 hf0 hmem
        · intro t0 h0
          rw [hf0] at h0
          exact Option.noConfusion h0
      | inr he => exact hcl tid he
    | some t0 =>
      obtain ⟨t, hft, hrel⟩ := (tagsEvolved_findBy hInv tid').2 t0 hf0
      have hc0 : colonCount t0.keyword ≤ 1 := hcol0 t0 (findBy_eq_some_mem hf0).1
      by_cases href0 : kwStartsWith t0.keyword "reference:" = true
      · -- original keyword is reference:-prefixed; it is never mutated, so the
        -- current keyword is the same and the tag is skipped
        have htkw : t.keyword = t0.keyword := by
          cases hrel.2 with
          | inl he => exact he
          | inr he => rw [he.2.1] at href0; exact Bool.noConfusion href0
        have hreft : kwStartsWith t.keyword "reference:" = true := by
          rw [htkw]; exact href0
        have hds : collectTagsDetails tags (tid' :: rest) = collectTagsDetails tags rest := by
          rw [collectTagsDetails_cons_some hft, if_pos hreft]
        rw [hds]
        obtain ⟨hev, hcl⟩ := ih tags hInv
        refine ⟨hev, ?_⟩
        intro tid htid
        cases List.mem_cons.mp htid with
        | inl he =>
          subst he
          refine ⟨?_, ?_⟩
          · intro hn
            rw [hf0] at hn
            exact Option.noConfusion hn
          · intro t0' h0'
            have ht0' : t0 = t0' := Option.some.inj (hf0.symm.trans h0')
            subst ht0'
            refine ⟨?_, ?_, ?_⟩
            · intro _ hmem
              exact ((hcl tid (collectTagsDetails_subset rest tags hmem)).2 t0 hf0).1
                href0 hmem
            · intro hrf
              rw [hrf] at href0
              exact Bool.noConfusion href0
            · intro hrf _
              rw [hrf] at href0
              exact Bool.noConfusion href0
        | inr he => exact hcl tid he
      · have href0' : kwStartsWith t0.keyword "reference:" = false :=
          Bool.not_eq_true _ ▸ href0
        by_cases hlang0 : kwStartsWith t0.keyword "lang:" = true
        · -- lang: tag: pushed verbatim, catalog untouched
          have htkw : t.keyword = t0.keyword := by
            cases hrel.2 with
            | inl he => exact he
            | inr he => rw [he.2.2] at hlang0; exact Bool.noConfusion hlang0
          have hreft : kwStartsWith t.keyword "reference:" = false := by
            rw [htkw]; exact href0'
          have hlangt : kwStartsWith t.keyword "lang:" = true := by
            rw [htkw]; exact hlang0
          have hds1 : (collectTagsDetails tags (tid' :: rest)).1 =
              tid' :: (collectTagsDetails tags rest).1 := by
            rw [collectTagsDetails_cons_some hft, if_neg (by rw [hreft]; exact Bool.false_ne_true),
              if_pos hlangt]
          have hds2 : (collectTagsDetails tags (tid' :: rest)).2 =
              (collectTagsDetails tags rest).2 := by
            rw [collectTagsDetails_cons_some hft, if_neg (by rw [hreft]; exact Bool.false_ne_true),
              if_pos hlangt]
          obtain ⟨hev, hcl⟩ := ih tags hInv
          rw [hds1, hds2]
          refine ⟨hev, ?_⟩
          intro tid htid
          refine ⟨?_, ?_⟩
          · intro hn hmem
            have htne : tid ≠ tid' := fun he => by
              rw [he, hf0] at hn
              exact Option.noConfusion hn
            have hmem' : tid ∈ (collectTagsDetails tags rest).1 :=
              (List.mem_cons.mp hmem).resolve_left htne
            exact (hcl tid (collectTagsDetails_subset rest tags hmem')).1 hn hmem'
          · intro t0' h0'
            refine ⟨?_, ?_, ?_⟩
            · intro hrf hmem
              by_cases hte : tid = tid'
              · subst hte
                have ht0' : t0 = t0' := Option.some.inj (hf0.symm.trans h0')
                subst ht0'
                rw [hrf] at href0'
                exact Bool.noConfusion href0'
              · have hmem' : tid ∈ (collectTagsDetails tags rest).1 :=
                  (List.mem_cons.mp hmem).resolve_left hte
                exact ((hcl tid (collectTagsDetails_subset rest tags hmem')).2 t0' h0').1
                  hrf hmem'
            · intro hrf
              by_cases hte : tid = tid'
              · rw [hte]; exact List.mem_cons_self _ _
              · have htid' : tid ∈ rest := (List.mem_cons.mp htid).resolve_left hte
                exact List.mem_cons_of_mem _
                  (((hcl tid htid').2 t0' h0').2.1 hrf)
            · intro hrf hlg
              by_cases hte : tid = tid'
              · subst hte
                have ht0' : t0 = t0' := Option.some.inj (hf0.symm.trans h0')
                subst ht0'
                rw [hlg] at hlang0
                exact Bool.noConfusion hlang0
              · have htid' : tid ∈ rest := (List.mem_cons.mp htid).resolve_left hte
                exact ((hcl tid htid').2 t0' h0').2.2 hrf hlg
        · -- any other namespace: the tag is pushed and its keyword stripped in place
          have hlang0' : kwStartsWith t0.keyword "lang:" = false :=
            Bool.not_eq_true _ ▸ hlang0
          have hz : colonCount (stripTagPrefix t0.keyword) = 0 :=
            colonCount_strip_eq_zero hc0
          have hreft : kwStartsWith t.keyword "reference:" = false := by
            cases hrel.2 with
            | inl he => rw [he]; exact href0'
            | inr he =>
              rw [he.1]
              exact not_startsWith_of_colonFree hz (by decide)
          have hlangt : kwStartsWith t.keyword "lang:" = false := by
            cases hrel.2 with
            | inl he => rw [he]; exact hlang0'
            | inr he =>
              rw [he.1]
              exact not_startsWith_of_colonFree hz (by decide)
          have hstept : TagsEvolved tags (updateBy Tag.tagId tid'
              (fun x => { x with keyword := stripTagPrefix x.keyword }) tags) :=
            tagsEvolved_updateBy_strip hft hreft hlangt
          have hInv1 : TagsEvolved tags0 (updateBy Tag.tagId tid'
              (fun x => { x with keyword := stripTagPrefix x.keyword }) tags) :=
            tagsEvolved_trans hcol0 hInv hstept
          have hds1 : (collectTagsDetails tags (tid' :: rest)).1 =
              tid' :: (collectTagsDetails (updateBy Tag.tagId tid'
                (fun x => { x with keyword := stripTagPrefix x.keyword }) tags) rest).1 := by
            rw [collectTagsDetails_cons_some hft,
              if_neg (by rw [hreft]; exact Bool.false_ne_true),
              if_neg (by rw [hlangt]; exact Bool.false_ne_true)]
          have hds2 : (collectTagsDetails tags (tid' :: rest)).2 =
              (collectTagsDetails (updateBy Tag.tagId tid'
                (fun x => { x with keyword := stripTagPrefix x.keyword }) tags) rest).2 := by
            rw [collectTagsDetails_cons_some hft,
              if_neg (by rw [hreft]; exact Bool.false_ne_true),
              if_neg (by rw [hlangt]; exact Bool.false_ne_true)]
          obtain ⟨hev, hcl⟩ := ih _ hInv1
          rw [hds1, hds2]
          -- the tag just mutated now carries the stripped, colon-free keyword
          have hstrip1 : Stripped (updateBy Tag.tagId tid'
              (fun x => { x with keyword := stripTagPrefix x.keyword }) tags) tid' t0 := by
            refine ⟨{ t with keyword := stripTagPrefix t.keyword },
              @findBy_updateBy_self Tag Tag.tagId
                (fun x => { x with keyword := stripTagPrefix x.keyword })
                (fun a => rfl) tid' t tags hft, ?_, ?_⟩
            · show stripTagPrefix t.keyword = stripTagPrefix t0.keyword
              cases hrel.2 with
              | inl he => rw [he]
              | inr he => rw [he.1, strip_of_colonFree hz]
            · show colonCount (stripTagPrefix t.keyword) = 0
              cases hrel.2 with
              | inl he => rw [he]; exact hz
              | inr he => rw [he.1, strip_of_colonFree hz]; exact hz
          have hstripF : Stripped (collectTagsDetails (updateBy Tag.tagId tid'
              (fun x => { x with keyword := stripTagPrefix x.keyword }) tags) rest).2
              tid' t0 :=
            stripped_stable
              (collectTagsDetails_evolves rest _ (tagsEvolved_colonBound hcol0 hInv1))
              hstrip1
          refine ⟨hev, ?_⟩
          intro tid htid
          refine ⟨?_, ?_⟩
          · intro hn hmem
            have htne : tid ≠ tid' := fun he => by
              rw [he, hf0] at hn
              exact Option.noConfusion hn
            have hmem' := (List.mem_cons.mp hmem).resolve_left htne
            exact (hcl tid (collectTagsDetails_subset rest _ hmem')).1 hn hmem'
          · intro t0' h0'
            refine ⟨?_, ?_, ?_⟩
            · intro hrf hmem
              by_cases hte : tid = tid'
              · subst hte
                have ht0' : t0 = t0' := Option.some.inj (hf0.symm.trans h0')
                subst ht0'
                rw [hrf] at href0'
                exact Bool.noConfusion href0'
              · have hmem' := (List.mem_cons.mp hmem).resolve_left hte
                exact ((hcl tid (collectTagsDetails_subset rest _ hmem')).2 t0' h0').1
                  hrf hmem'
            · intro hrf
              by_cases hte : tid = tid'
              · rw [hte]; exact List.mem_cons_self _ _
              · have htid' : tid ∈ rest := (List.mem_cons.mp htid).resolve_left hte
                exact List.mem_cons_of_mem _ (((hcl tid htid').2 t0' h0').2.1 hrf)
            · intro hrf hlg
              by_cases hte : tid = tid'
              · subst hte
                have ht0' : t0 = t0' := Option.some.inj (hf0.symm.trans h0')
                subst ht0'
                exact hstripF
              · have htid' : tid ∈ rest := (List.mem_cons.mp htid).resolve_left hte
                exact ((hcl tid htid').2 t0' h0').2.2 hrf hlg

theorem annotateFilters_evolves :
    ∀ (fs : List Filter) (tags : List Tag),
      (∀ t ∈ tags, colonCount t.keyword ≤ 1) →
      TagsEvolved tags (annotateFilters tags fs).2 := by
  intro fs
  induction fs with
  | nil => intro tags _; exact tagsEvolved_refl tags
  | cons f fs ih =>
    intro tags hcol
    have hstep := collectTagsDetails_evolves f.tags tags hcol
    have hcol1 := tagsEvolved_colonBound hcol hstep
    exact tagsEvolved_trans hcol hstep (ih _ hcol1)

theorem annotateFilters_spec (tags0 : List Tag)
    (hcol0 : ∀ t ∈ tags0, colonCount t.keyword ≤ 1) :
    ∀ (fs : List Filter) (tags : List Tag), TagsEvolved tags0 tags →
      TagsEvolved tags0 (annotateFilters tags fs).2 ∧
      ∀ fd ∈ (annotateFilters tags fs).1, ∀ tid ∈ fd.1.tags,
        (findBy Tag.tagId tid tags0 = none → tid ∉ fd.2) ∧
        (∀ t0, findBy Tag.tagId tid tags0 = some t0 →
          (kwStartsWith t0.keyword "reference:" = true → tid ∉ fd.2) ∧
          (kwStartsWith t0.keyword "reference:" = false → tid ∈ fd.2) ∧
          (kwStartsWith t0.keyword "reference:" = false →
           kwStartsWith t0.keyword "lang:" = false →
              Stripped (annotateFilters tags fs).2 tid t0)) := by
  intro fs
  induction fs with
  | nil =>
    intro tags hInv
    exact ⟨hInv, fun fd hfd => absurd hfd (List.not_mem_nil fd)⟩
  | cons f fs ih =>
    intro tags hInv
    obtain ⟨hevC, hclC⟩ := collectTagsDetails_spec tags0 hcol0 f.tags tags hInv
    obtain ⟨hevA, hclA⟩ := ih (collectTagsDetails tags f.tags).2 hevC
    have hcol1 : ∀ t ∈ (collectTagsDetails tags f.tags).2, colonCount t.keyword ≤ 1 :=
      tagsEvolved_colonBound hcol0 hevC
    refine ⟨hevA, ?_⟩
    intro fd hfd tid htid
    have hfd' : fd ∈ (f, (collectTagsDetails tags f.tags).1) ::
        (annotateFilters (collectTagsDetails tags f.tags).2 fs).1 := hfd
    cases List.mem_cons.mp hfd' with
    | inl he =>
      subst he
      have hcc := hclC tid htid
      refine ⟨hcc.1, ?_⟩
      intro t0 h0
      have hc := hcc.2 t0 h0
      refine ⟨hc.1, hc.2.1, ?_⟩
      intro hrf hlg
      exact stripped_stable (annotateFilters_evolves fs _ hcol1) (hc.2.2 hrf hlg)
    | inr he => exact hclA fd he tid htid

/-! ## C6 — the tagsDetails display transformation -/

/-- C6 counterexample: with a single filter carrying tag id 1 twice and that
tag's keyword holding two colons, the shared tag object is stripped twice, so
the tag appears in `tagsDetails` with keyword `"c"` instead of the
claim-mandated `"b:c"` (everything up to and including the first `':'`
removed). -/
theorem getFilters_tagsDetails_counterexample :
    (getFiltersCat [fMulti] tagsMulti).1 = [(fMulti, [1, 1])] ∧
    kwStartsWith ("a:b:c" : String) "reference:" = false ∧
    kwStartsWith ("a:b:c" : String) "lang:" = false ∧
    findBy Tag.tagId 1 tagsMulti = some { tagId := 1, keyword := "a:b:c" } ∧
    ((findBy Tag.tagId 1 (getFiltersCat [fMulti] tagsMulti).2).map Tag.keyword
      = some "c") ∧
    stripTagPrefix "a:b:c" = "b:c" ∧
    (("c" : String) = "b:c" → False) := by
  decide

/-- C6 (amended): provided every tag keyword holds at most one `':'`, each tag
id on a listed filter behaves as specified: a missing tag id is skipped, a
`reference:`-prefixed keyword is excluded from `tagsDetails`, a
`lang:`-prefixed keyword is included and displayed verbatim, and any other
keyword is included and displayed with everything up to and including the
first `':'` removed. -/
theorem getFilters_tagsDetails_spec (filters : List Filter) (tags : List Tag)
    (hcol : ∀ t ∈ tags, colonCount t.keyword ≤ 1)
    (fd : Filter × List Nat) (hfd : fd ∈ (getFiltersCat filters tags).1)
    (tid : Nat) (htid : tid ∈ fd.1.tags) :
    (findBy Tag.tagId tid tags = none → tid ∉ fd.2) ∧
    (∀ t0, findBy Tag.tagId tid tags = some t0 →
      (kwStartsWith t0.keyword "reference:" = true → tid ∉ fd.2) ∧
      (kwStartsWith t0.keyword "lang:" = true → tid ∈ fd.2 ∧
        ∃ t, findBy Tag.tagId tid (getFiltersCat filters tags).2 = some t ∧
          t.keyword = t0.keyword) ∧
      (kwStartsWith t0.keyword "reference:" = false →
       kwStartsWith t0.keyword "lang:" = false → tid ∈ fd.2 ∧
        ∃ t, findBy Tag.tagId tid (getFiltersCat filters tags).2 = some t ∧
          t.keyword = stripTagPrefix t0.keyword)) := by
  obtain ⟨hev, hcl⟩ := annotateFilters_spec tags hcol
    (filters.filter (fun f => !f.removed)) tags (tagsEvolved_refl tags)
  have hmain := hcl fd hfd tid htid
  refine ⟨hmain.1, ?_⟩
  intro t0 h0
  have hm := hmain.2 t0 h0
  refine ⟨hm.1, ?_, ?_⟩
  · intro hlang
    have href : kwStartsWith t0.keyword "reference:" = false := lang_not_reference hlang
    refine ⟨hm.2.1 href, ?_⟩
    obtain ⟨t, hft, hr⟩ := (tagsEvolved_findBy hev tid).2 t0 h0
    refine ⟨t, hft, ?_⟩
    cases hr.2 with
    | inl he => exact he
    | inr he => rw [he.2.2] at hlang; exact Bool.noConfusion hlang
  · intro href hlang
    refine ⟨hm.2.1 href, ?_⟩
    obtain ⟨t, hft, hkw, _⟩ := hm.2.2 href hlang
    exact ⟨t, hft, hkw⟩

/-- Witness for C6 at a concrete catalog: a `lang:en` tag, a `group:custom`
tag, a `reference:doc` tag and a dangling tag id 4 on one filter. -/
theorem getFilters_tagsDetails_spec_witness :
    (∀ t ∈ tagsW, colonCount t.keyword ≤ 1) ∧
    ((2 : Nat) ∈ fTagsW.tags) ∧
    ((findBy Tag.tagId 2 tagsW = none → (2 : Nat) ∉ [1, 2]) ∧
     (∀ t0, findBy Tag.tagId 2 tagsW = some t0 →
       (kwStartsWith t0.keyword "reference:" = true → (2 : Nat) ∉ [1, 2]) ∧
       (kwStartsWith t0.keyword "lang:" = true → (2 : Nat) ∈ [1, 2] ∧
         ∃ t, findBy Tag.tagId 2 (getFiltersCat [fTagsW] tagsW).2 = some t ∧
           t.keyword = t0.keyword) ∧
       (kwStartsWith t0.keyword "reference:" = false →
        kwStartsWith t0.keyword "lang:" = false → (2 : Nat) ∈ [1, 2] ∧
         ∃ t, findBy Tag.tagId 2 (getFiltersCat [fTagsW] tagsW).2 = some t ∧
           t.keyword = stripTagPrefix t0.keyword))) :=
  ⟨by decide, by decide,
    getFilters_tagsDetails_spec [fTagsW] tagsW (by decide) (fTagsW, [1, 2])
      (by decide) 2 (by decide)⟩

/-! ## Manager-level helper lemmas -/

theorem persistFilter_filters (st : MState) (fid : Nat) :
    (persistFilter st fid).filters = st.filters := by
  rw [persistFilter]
  cases getFilterSt st fid <;> rfl

theorem persistFilter_groups (st : MState) (fid : Nat) :
    (persistFilter st fid).groups = st.groups := by
  rw [persistFilter]
  cases getFilterSt st fid <;> rfl

theorem persistFilter_tags (st : MState) (fid : Nat) :
    (persistFilter st fid).tags = st.tags := by
  rw [persistFilter]
  cases getFilterSt st fid <;> rfl

theorem getFilterSt_persistFilter (st : MState) (fid j : Nat) :
    getFilterSt (persistFilter st fid) j = getFilterSt st j := by
  rw [getFilterSt, getFilterSt, persistFilter_filters]

theorem persistFilter_store_self {st : MState} {fid : Nat} {f : Filter}
    (hf : getFilterSt st fid = some f) :
    storeGet (persistFilter st fid).store fid =
      some ⟨f.enabled, f.installed, f.loaded⟩ := by
  rw [persistFilter, hf]
  exact storeGet_storeSet_self st.store fid _

theorem persistFilter_store_other (st : MState) (fid : Nat) {j : Nat} (hne : j ≠ fid) :
    storeGet (persistFilter st fid).store j = storeGet st.store j := by
  rw [persistFilter]
  cases getFilterSt st fid with
  | none => rfl
  | some f => exact storeGet_storeSet_of_ne hne st.store _

theorem isFilterEnabled_congr {st1 st2 : MState} {j : Nat}
    (hf : getFilterSt st1 j = getFilterSt st2 j)
    (hs : storeGet st1.store j = storeGet st2.store j) :
    isFilterEnabled st1 j = isFilterEnabled st2 j := by
  rw [isFilterEnabled, isFilterEnabled, hf, hs]

/-! ## C7 — removeFilter -/

theorem removeFilter_noop_absent {st : MState} {filterId : Nat}
    (hf : getFilterSt st filterId = none) :
    removeFilter st filterId = (st, []) := by
  rw [removeFilter]
  split
  · rfl
  · rename_i f' heq
    exact Option.noConfusion (hf.symm.trans heq)

theorem removeFilter_noop_flags {st : MState} {filterId : Nat} {f : Filter}
    (hf : getFilterSt st filterId = some f)
    (hno : f.removed = true ∨ hasCustomUrl f = false) :
    removeFilter st filterId = (st, []) := by
  rw [removeFilter]
  split
  · rename_i heq
    exact Option.noConfusion (hf.symm.trans heq)
  · rename_i f' heq
    have hef : f = f' := Option.some.inj (hf.symm.trans heq)
    subst hef
    split_ifs with h1 h2
    · rfl
    · rfl
    · exfalso
      cases hno with
      | inl hr => exact h1 hr
      | inr hcu => exact h2 (by rw [hcu]; rfl)

theorem removeFilter_success {st : MState} {filterId : Nat} {f : Filter}
    (hf : getFilterSt st filterId = some f)
    (hr : f.removed = false) (hcu : hasCustomUrl f = true) :
    removeFilter st filterId =
      (persistFilter { st with filters := (updateBy Filter.filterId filterId
          (fun x => { x with enabled := false, installed := false, removed := true })
          st.filters) } filterId,
       [.event (.filterEnableDisable filterId), .event (.filterAddRemove filterId)]) := by
  rw [removeFilter]
  split
  · rename_i heq
    exact Option.noConfusion (hf.symm.trans heq)
  · rename_i f' heq
    have hef : f = f' := Option.some.inj (hf.symm.trans heq)
    subst hef
    split_ifs with h1 h2
    · rw [hr] at h1; exact Bool.noConfusion h1
    · rw [hcu] at h2; exact Bool.noConfusion h2
    · rfl

/-- C7: `removeFilter` leaves the filter's flags unchanged and emits no events
when the filter is absent, already removed, or has no (truthy) custom URL; on
a present, unremoved custom filter it clears `enabled`/`installed`, sets
`removed`, and emits `FILTER_ENABLE_DISABLE` followed by `FILTER_ADD_REMOVE`. -/
theorem removeFilter_spec (st : MState) (filterId : Nat) :
    (getFilterSt st filterId = none → removeFilter st filterId = (st, [])) ∧
    (∀ f, getFilterSt st filterId = some f →
      ((f.removed = true ∨ hasCustomUrl f = false) →
          removeFilter st filterId = (st, [])) ∧
      (f.removed = false → hasCustomUrl f = true →
        getFilterSt (removeFilter st filterId).1 filterId =
          some { f with enabled := false, installed := false, removed := true } ∧
        (removeFilter st filterId).2 =
          [.event (.filterEnableDisable filterId), .event (.filterAddRemove filterId)])) := by
  refine ⟨fun hf => removeFilter_noop_absent hf, ?_⟩
  intro f hf
  refine ⟨fun hno => removeFilter_noop_flags hf hno, ?_⟩
  intro hr hcu
  rw [removeFilter_success hf hr hcu]
  refine ⟨?_, rfl⟩
  show getFilterSt (persistFilter _ filterId) filterId = _
  rw [getFilterSt_persistFilter]
  exact @findBy_updateBy_self Filter Filter.filterId
    (fun x => { x with enabled := false, installed := false, removed := true })
    (fun a => rfl) filterId f st.filters hf

/-- Witness for C7: both a blocked removal (non-custom filter 6) and a
successful removal (custom filter 5) at a concrete state. -/
theorem removeFilter_spec_witness :
    (getFilterSt stRem 6 = some (mkFilter 6 7) ∧ removeFilter stRem 6 = (stRem, [])) ∧
    (getFilterSt (removeFilter stRem 5).1 5 =
        some { mkFilter 5 7 with
                customUrl := some "https://example.org/l.txt",
                enabled := false, installed := false, removed := true } ∧
      (removeFilter stRem 5).2 =
        [.event (.filterEnableDisable 5), .event (.filterAddRemove 5)]) :=
  ⟨⟨by decide,
    ((removeFilter_spec stRem 6).2 (mkFilter 6 7) (by decide)).1 (Or.inr (by decide))⟩,
   ((removeFilter_spec stRem 5).2
      { mkFilter 5 7 with customUrl := some "https://example.org/l.txt" }
      (by decide)).2 (by decide) (by decide)⟩

/-! ## C9 — loadCustomFilter -/

theorem loadCustomFilter_falsy {upd : String → MState → Option Nat × MState}
    {st : MState} {url : Option String} (h : strTruthy url = false) :
    loadCustomFilter upd st url = some (st, .onError) := by
  rw [loadCustomFilter, if_pos h]

theorem loadCustomFilter_updFail {upd : String → MState → Option Nat × MState}
    {st st1 : MState} {url : Option String}
    (h : strTruthy url = true) (hu : upd (url.getD "") st = (none, st1)) :
    loadCustomFilter upd st url = some (st1, .onError) := by
  rw [loadCustomFilter, if_neg (by rw [h]; exact fun he => Bool.noConfusion he)]
  split
  · rename_i st1' heq
    have hp := hu.symm.trans heq
    rw [Prod.mk.injEq] at hp
    rw [hp.2]
  · rename_i fid' st1' heq
    have hp := hu.symm.trans heq
    rw [Prod.mk.injEq] at hp
    exact Option.noConfusion hp.1

theorem loadCustomFilter_updSuccess {upd : String → MState → Option Nat × MState}
    {st st1 : MState} {url : Option String} {fid : Nat} {f : Filter}
    (h : strTruthy url = true) (hu : upd (url.getD "") st = (some fid, st1))
    (hf : getFilterSt st1 fid = some f) :
    loadCustomFilter upd st url =
      some ({ st1 with filters := (updateBy Filter.filterId fid
                (fun f0 => { f0 with removed := false }) st1.filters) },
            .onSuccess { f with removed := false }) := by
  rw [loadCustomFilter, if_neg (by rw [h]; exact fun he => Bool.noConfusion he)]
  split
  · rename_i st1' heq
    have hp := hu.symm.trans heq
    rw [Prod.mk.injEq] at hp
    exact Option.noConfusion hp.1
  · rename_i fid' st1' heq
    have hp := hu.symm.trans heq
    rw [Prod.mk.injEq] at hp
    obtain ⟨hfid, hst⟩ := hp
    have hfid' : fid = fid' := Option.some.inj hfid
    subst hfid'
    subst hst
    split
    · rename_i heq2
      exact Option.noConfusion (hf.symm.trans heq2)
    · rename_i f' heq2
      have hef : f = f' := Option.some.inj (hf.symm.trans heq2)
      subst hef
      rfl

/-- C9: a falsy `url` makes `loadCustomFilter` call the error callback at once
(it neither throws nor calls the success callback); a registration that yields
a filter id clears that filter's `removed` flag and hands the filter to the
success callback; a registration that yields no id calls the error callback. -/
theorem loadCustomFilter_spec (upd : String → MState → Option Nat × MState)
    (st : MState) (url : Option String) :
    (strTruthy url = false → loadCustomFilter upd st url = some (st, .onError)) ∧
    (strTruthy url = true →
      (∀ st1, upd (url.getD "") st = (none, st1) →
          loadCustomFilter upd st url = some (st1, .onError)) ∧
      (∀ fid st1 f, upd (url.getD "") st = (some fid, st1) →
        getFilterSt st1 fid = some f →
          loadCustomFilter upd st url =
            some ({ st1 with filters := (updateBy Filter.filterId fid
                      (fun f0 => { f0 with removed := false }) st1.filters) },
                  .onSuccess { f with removed := false }) ∧
          getFilterSt { st1 with filters := (updateBy Filter.filterId fid
              (fun f0 => { f0 with removed := false }) st1.filters) } fid =
            some { f with removed := false })) := by
  refine ⟨fun h => loadCustomFilter_falsy h, fun h => ⟨?_, ?_⟩⟩
  · intro st1 hu
    exact loadCustomFilter_updFail h hu
  · intro fid st1 f hu hf
    refine ⟨loadCustomFilter_updSuccess h hu hf, ?_⟩
    show findBy Filter.filterId fid _ = _
    exact @findBy_updateBy_self Filter Filter.filterId
      (fun f0 => { f0 with removed := false }) (fun a => rfl) fid f st1.filters hf

/-- Witness for C9: missing url, failing registration, and successful
re-registration of a previously removed custom filter. -/
theorem loadCustomFilter_spec_witness :
    loadCustomFilter updOk stEmpty none = some (stEmpty, .onError) ∧
    loadCustomFilter updFail stEmpty (some "https://example.org/c.txt") =
      some (stEmpty, .onError) ∧
    loadCustomFilter updOk stEmpty (some "https://example.org/c.txt") =
      some ({ filters := [{ fCustom7 with removed := false }], groups := [],
              tags := [], store := [] },
            .onSuccess { fCustom7 with removed := false }) :=
  ⟨(loadCustomFilter_spec updOk stEmpty none).1 (by decide),
   ((loadCustomFilter_spec updFail stEmpty (some "https://example.org/c.txt")).2
      (by decide)).1 stEmpty (by decide),
   (((loadCustomFilter_spec updOk stEmpty (some "https://example.org/c.txt")).2
      (by decide)).2 7 { stEmpty with filters := [fCustom7] } fCustom7
      (by decide) (by decide)).1⟩

/-! ## enableGroup / enableFilter behaviour -/

theorem getFilterSt_ext {st1 st2 : MState} (h : st1.filters = st2.filters) (j : Nat) :
    getFilterSt st1 j = getFilterSt st2 j := by
  rw [getFilterSt, getFilterSt, h]

theorem enableGroup_spec (st : MState) (gid : Nat) :
    (enableGroup st gid).1.filters = st.filters ∧
    (enableGroup st gid).1.store = st.store ∧
    (enableGroup st gid).1.tags = st.tags ∧
    (enableGroup st gid).1.groups.map Group.groupId = st.groups.map Group.groupId ∧
    (∀ j, findBy Group.groupId j (enableGroup st gid).1.groups ≠
        findBy Group.groupId j st.groups →
      j = gid ∧ Action.event (.filterGroupEnableDisable gid) ∈ (enableGroup st gid).2) ∧
    (∀ g, getGroupSt st gid = some g →
      getGroupSt (enableGroup st gid).1 gid = some { g with enabled := some true }) ∧
    (∀ a ∈ (enableGroup st gid).2, actionFid a = none ∧ isLoadAct a = false ∧
      a = Action.event (.filterGroupEnableDisable gid)) := by
  cases hg : getGroupSt st gid with
  | none =>
    have hres : enableGroup st gid = (st, []) := by rw [enableGroup, hg]
    rw [hres]
    refine ⟨rfl, rfl, rfl, rfl, fun j hne => absurd rfl hne, ?_, ?_⟩
    · intro g hg'
      exact Option.noConfusion hg'
    · intro a ha
      exact absurd ha (List.not_mem_nil a)
  | some g =>
    by_cases he : g.enabled = some true
    · have hres : enableGroup st gid = (st, []) := by
        rw [enableGroup, hg]
        show (if g.enabled = some true then (st, [])
              else ({ st with groups := (updateBy Group.groupId gid
                  (fun g0 => { g0 with enabled := some true }) st.groups) },
                [Action.event (Event.filterGroupEnableDisable gid)])) = (st, [])
        rw [if_pos he]
      rw [hres]
      refine ⟨rfl, rfl, rfl, rfl, fun j hne => absurd rfl hne, ?_, ?_⟩
      · intro g' hg'
        have hgg : g = g' := Option.some.inj hg'
        subst hgg
        rw [hg]
        cases g with
        | mk gid' en =>
          simp only at he
          rw [he]
      · intro a ha
        exact absurd ha (List.not_mem_nil a)
    · have hres : enableGroup st gid =
          ({ st with groups := (updateBy Group.groupId gid
              (fun g0 => { g0 with enabled := some true }) st.groups) },
           [Action.event (Event.filterGroupEnableDisable gid)]) := by
        rw [enableGroup, hg]
        show (if g.enabled = some true then (st, [])
              else ({ st with groups := (updateBy Group.groupId gid
                  (fun g0 => { g0 with enabled := some true }) st.groups) },
                [Action.event (Event.filterGroupEnableDisable gid)])) = _
        rw [if_neg he]
      rw [hres]
      refine ⟨rfl, rfl, rfl,
        @map_key_updateBy Group Group.groupId (fun g0 => { g0 with enabled := some true })
          (fun a => rfl) gid st.groups, ?_, ?_, ?_⟩
      · intro j hne
        by_cases hj : j = gid
        · exact ⟨hj, List.mem_cons_self _ _⟩
        · exact absurd (@findBy_updateBy_of_ne Group Group.groupId
            (fun g0 => { g0 with enabled := some true }) (fun a => rfl) j gid hj st.groups) hne
      · intro g' hg'
        have hgg : g = g' := Option.some.inj hg'
        subst hgg
        exact @findBy_updateBy_self Group Group.groupId
          (fun g0 => { g0 with enabled := some true }) (fun a => rfl) gid g st.groups hg
      · intro a ha
        have : a = Action.event (.filterGroupEnableDisable gid) := by
          cases List.mem_cons.mp ha with
          | inl h => exact h
          | inr h => exact absurd h (List.not_mem_nil a)
        subst this
        exact ⟨rfl, rfl, rfl⟩

theorem maybeEnableGroup_spec (st : MState) (gid : Nat) :
    (maybeEnableGroup st gid).1.filters = st.filters ∧
    (maybeEnableGroup st gid).1.store = st.store ∧
    (maybeEnableGroup st gid).1.tags = st.tags ∧
    (maybeEnableGroup st gid).1.groups.map Group.groupId = st.groups.map Group.groupId ∧
    (∀ j, findBy Group.groupId j (maybeEnableGroup st gid).1.groups ≠
        findBy Group.groupId j st.groups →
      j = gid ∧ Action.event (.filterGroupEnableDisable gid) ∈ (maybeEnableGroup st gid).2) ∧
    (∀ a ∈ (maybeEnableGroup st gid).2, actionFid a = none ∧ isLoadAct a = false ∧
      a = Action.event (.filterGroupEnableDisable gid)) := by
  rw [maybeEnableGroup]
  split_ifs with hgs
  · exact ⟨rfl, rfl, rfl, rfl, fun j hne => absurd rfl hne,
      fun a ha => absurd ha (List.not_mem_nil a)⟩
  · obtain ⟨h1, h2, h3, h4, h5, _, h7⟩ := enableGroup_spec st gid
    exact ⟨h1, h2, h3, h4, h5, h7⟩

theorem enableFilter_already {st : MState} {fid : Nat}
    (h : isFilterEnabled st fid = true) :
    enableFilter st fid = some (st, []) := by
  rw [enableFilter, if_pos h]

/-- Full behaviour of `enableFilter` on a present, not-yet-enabled filter. -/
theorem enableFilter_not_enabled {st : MState} {fid : Nat} {f : Filter}
    (hen : isFilterEnabled st fid = false) (hf : getFilterSt st fid = some f) :
    ∃ st' tr, enableFilter st fid = some (st', tr) ∧
      getFilterSt st' fid = some { f with enabled := true } ∧
      isFilterEnabled st' fid = true ∧
      storeGet st'.store fid = some ⟨true, f.installed, f.loaded⟩ ∧
      countFilterEnableEvents tr = 1 ∧
      (∀ j, j ≠ fid → getFilterSt st' j = getFilterSt st j ∧
          storeGet st'.store j = storeGet st.store j) ∧
      st'.filters.map Filter.filterId = st.filters.map Filter.filterId ∧
      st'.groups.map Group.groupId = st.groups.map Group.groupId ∧
      st'.tags = st.tags ∧
      (∀ gid, findBy Group.groupId gid st'.groups ≠ findBy Group.groupId gid st.groups →
        Action.event (.filterGroupEnableDisable gid) ∈ tr) ∧
      tr.filter isLoadAct = [] ∧
      (∀ a ∈ tr, ∀ j, actionFid a = some j → j = fid) := by
  have hne' : ¬ (isFilterEnabled st fid = true) := by
    rw [hen]; exact Bool.false_ne_true
  have heq : enableFilter st fid =
      some (persistFilter
              (maybeEnableGroup { st with filters := (updateBy Filter.filterId fid
                  (fun x => { x with enabled := true }) st.filters) } f.groupId).1
              fid,
            (maybeEnableGroup { st with filters := (updateBy Filter.filterId fid
                (fun x => { x with enabled := true }) st.filters) } f.groupId).2
              ++ [.event (.filterEnableDisable fid)]) := by
    rw [enableFilter, if_neg hne', hf]
  obtain ⟨hmF, hmS, hmT, hmG, hmE, hmA⟩ := maybeEnableGroup_spec
    { st with filters := (updateBy Filter.filterId fid
        (fun x => { x with enabled := true }) st.filters) } f.groupId
  have hget1 : getFilterSt { st with filters := (updateBy Filter.filterId fid
      (fun x => { x with enabled := true }) st.filters) } fid =
      some { f with enabled := true } :=
    @findBy_updateBy_self Filter Filter.filterId
      (fun x => { x with enabled := true }) (fun a => rfl) fid f st.filters hf
  have hgetM : getFilterSt (maybeEnableGroup { st with filters := (updateBy Filter.filterId fid
      (fun x => { x with enabled := true }) st.filters) } f.groupId).1 fid =
      some { f with enabled := true } := by
    rw [getFilterSt_ext hmF]
    exact hget1
  refine ⟨_, _, heq, ?_, ?_, ?_, ?_, ?_, ?_, ?_, ?_, ?_, ?_, ?_⟩
  · rw [getFilterSt_persistFilter]
    exact hgetM
  · have hsg := persistFilter_store_self hgetM
    rw [isFilterEnabled, getFilterSt_persistFilter, hgetM, hsg]
    rfl
  · exact persistFilter_store_self hgetM
  · rw [countFilterEnableEvents, List.filter_append, List.length_append]
    have h0 : (List.filter (fun a => match a with
        | .event (.filterEnableDisable _) => true
        | _ => false) (maybeEnableGroup { st with filters := (updateBy Filter.filterId fid
          (fun x => { x with enabled := true }) st.filters) } f.groupId).2) = [] := by
      rw [List.filter_eq_nil_iff]
      intro a ha
      have := (hmA a ha).2.2
      subst this
      exact fun h => Bool.noConfusion h
    rw [h0]
    rfl
  · intro j hj
    constructor
    · rw [getFilterSt_persistFilter, getFilterSt_ext hmF]
      exact @findBy_updateBy_of_ne Filter Filter.filterId
        (fun x => { x with enabled := true }) (fun a => rfl) j fid hj st.filters
    · rw [persistFilter_store_other _ _ hj, hmS]
  · rw [persistFilter_filters, hmF]
    exact @map_key_updateBy Filter Filter.filterId
      (fun x => { x with enabled := true }) (fun a => rfl) fid st.filters
  · rw [persistFilter_groups]
    exact hmG
  · rw [persistFilter_tags, hmT]
  · intro gid hne
    rw [persistFilter_groups] at hne
    obtain ⟨hj, hmem⟩ := hmE gid hne
    subst hj
    exact List.mem_append_left _ hmem
  · rw [List.filter_append]
    have h0 : (List.filter isLoadAct (maybeEnableGroup { st with
        filters := (updateBy Filter.filterId fid
          (fun x => { x with enabled := true }) st.filters) } f.groupId).2) = [] := by
      rw [List.filter_eq_nil_iff]
      intro a ha
      rw [(hmA a ha).2.1]
      exact fun h => Bool.noConfusion h
    rw [h0]
    rfl
  · intro a ha j hj
    cases List.mem_append.mp ha with
    | inl h =>
      rw [(hmA a h).1] at hj
      exact Option.noConfusion hj
    | inr h =>
      have : a = Action.event (.filterEnableDisable fid) := by
        cases List.mem_cons.mp h with
        | inl h2 => exact h2
        | inr h2 => exact absurd h2 (List.not_mem_nil a)
      subst this
      exact Option.some.inj hj.symm

/-! ## C8 — enableFilter called twice -/

/-- C8 counterexample: on a filter that is already enabled in the state store,
both calls are no-ops and the two calls together emit zero
`FILTER_ENABLE_DISABLE` events, not one. -/
theorem enableFilter_twice_counterexample :
    present stEnOn 5 = true ∧
    enableFilter stEnOn 5 = some (stEnOn, []) ∧
    countFilterEnableEvents ([] ++ []) ≠ 1 := by
  decide

/-- C8 (amended): for a catalog filter that is not already enabled per the
state store, calling `enableFilter` twice in a row emits exactly one
`FILTER_ENABLE_DISABLE` event: the first call sets `enabled` and emits, and
the second call, seeing the filter enabled via the state-store lookup, is a
no-op that changes nothing and emits nothing. -/
theorem enableFilter_twice_once_event {st : MState} {fid : Nat} {f : Filter}
    (hf : getFilterSt st fid = some f) (hen : isFilterEnabled st fid = false) :
    ∃ st1 tr1, enableFilter st fid = some (st1, tr1) ∧
      getFilterSt st1 fid = some { f with enabled := true } ∧
      isFilterEnabled st1 fid = true ∧
      countFilterEnableEvents tr1 = 1 ∧
      enableFilter st1 fid = some (st1, []) := by
  obtain ⟨st1, tr1, heq, hget, hen1, _, hcnt, _⟩ := enableFilter_not_enabled hen hf
  exact ⟨st1, tr1, heq, hget, hen1, hcnt, enableFilter_already hen1⟩

/-- Witness for C8 at a concrete not-yet-enabled filter. -/
theorem enableFilter_twice_once_event_witness :
    getFilterSt stEnOff 5 = some (mkFilter 5 7) ∧
    isFilterEnabled stEnOff 5 = false ∧
    (∃ st1 tr1, enableFilter stEnOff 5 = some (st1, tr1) ∧
      getFilterSt st1 5 = some { mkFilter 5 7 with enabled := true } ∧
      isFilterEnabled st1 5 = true ∧
      countFilterEnableEvents tr1 = 1 ∧
      enableFilter st1 5 = some (st1, [])) :=
  ⟨by decide, by decide, enableFilter_twice_once_event (by decide) (by decide)⟩

/-! ## C3 — disableFilters -/

theorem isFilterEnabled_exists {st : MState} {a : Nat}
    (h : isFilterEnabled st a = true) : ∃ f, getFilterSt st a = some f := by
  rw [isFilterEnabled] at h
  cases hf : getFilterSt st a with
  | none => rw [hf] at h; simp at h
  | some f => exact ⟨f, rfl⟩

theorem disableOne_getFilter_other {st : MState} {a j : Nat} (hj : j ≠ a) :
    getFilterSt (disableOne st a) j = getFilterSt st j := by
  rw [disableOne, getFilterSt_persistFilter]
  exact @findBy_updateBy_of_ne Filter Filter.filterId
    (fun x => { x with enabled := false }) (fun x => rfl) j a hj st.filters

theorem disableOne_store_other {st : MState} {a j : Nat} (hj : j ≠ a) :
    storeGet (disableOne st a).store j = storeGet st.store j := by
  rw [disableOne, persistFilter_store_other _ _ hj]

theorem disableOne_post {st : MState} {a : Nat} {f : Filter}
    (hf : getFilterSt st a = some f) :
    getFilterSt (disableOne st a) a = some { f with enabled := false } ∧
    isFilterEnabled (disableOne st a) a = false := by
  have hget1 : getFilterSt { st with filters := (updateBy Filter.filterId a
      (fun x => { x with enabled := false }) st.filters) } a =
      some { f with enabled := false } :=
    @findBy_updateBy_self Filter Filter.filterId (fun x => { x with enabled := false })
      (fun x => rfl) a f st.filters hf
  constructor
  · rw [disableOne, getFilterSt_persistFilter]
    exact hget1
  · have hs := persistFilter_store_self hget1
    rw [disableOne, isFilterEnabled, getFilterSt_persistFilter, hget1, hs]
    rfl

theorem disableFiltersGo_cons_enabled {st : MState} {a : Nat} {rest : List Nat}
    (h : isFilterEnabled st a = true) :
    disableFiltersGo st (a :: rest) =
      ((disableFiltersGo (disableOne st a) rest).1,
       .event (.filterEnableDisable a) :: (disableFiltersGo (disableOne st a) rest).2) := by
  rw [disableFiltersGo, if_pos h]

theorem disableFiltersGo_cons_disabled {st : MState} {a : Nat} {rest : List Nat}
    (h : isFilterEnabled st a = false) :
    disableFiltersGo st (a :: rest) = (st, []) := by
  rw [disableFiltersGo, if_neg (by rw [h]; exact Bool.false_ne_true)]

theorem disableFiltersGo_spec :
    ∀ (l : List Nat) (st : MState), l.Nodup →
      ((∀ a ∈ l, isFilterEnabled st a = true) →
        (disableFiltersGo st l).2 =
          l.map (fun a => Action.event (.filterEnableDisable a)) ∧
        (∀ a ∈ l, isFilterEnabled (disableFiltersGo st l).1 a = false) ∧
        (∀ j, j ∉ l → getFilterSt (disableFiltersGo st l).1 j = getFilterSt st j ∧
          storeGet (disableFiltersGo st l).1.store j = storeGet st.store j)) ∧
      (∀ pre b post, l = pre ++ b :: post →
        (∀ a ∈ pre, isFilterEnabled st a = true) → isFilterEnabled st b = false →
        (disableFiltersGo st l).2 =
          pre.map (fun a => Action.event (.filterEnableDisable a)) ∧
        (∀ a ∈ pre, isFilterEnabled (disableFiltersGo st l).1 a = false) ∧
        (∀ j, j ∉ pre → getFilterSt (disableFiltersGo st l).1 j = getFilterSt st j ∧
          storeGet (disableFiltersGo st l).1.store j = storeGet st.store j)) := by
  intro l
  induction l with
  | nil =>
    intro st _
    constructor
    · intro _
      exact ⟨rfl, fun a ha => absurd ha (List.not_mem_nil a), fun j _ => ⟨rfl, rfl⟩⟩
    · intro pre b post hsplit
      exact absurd hsplit (by simp)
  | cons x rest ih =>
    intro st hnd
    have hx_rest : x ∉ rest := (List.nodup_cons.mp hnd).1
    have hnd' : rest.Nodup := (List.nodup_cons.mp hnd).2
    constructor
    · intro hall
      have hx : isFilterEnabled st x = true := hall x (List.mem_cons_self _ _)
      obtain ⟨f, hf⟩ := isFilterEnabled_exists hx
      rw [disableFiltersGo_cons_enabled hx]
      have hallrest : ∀ a ∈ rest, isFilterEnabled (disableOne st x) a = true := by
        intro a ha
        have hne : a ≠ x := fun he => hx_rest (he ▸ ha)
        rw [isFilterEnabled_congr (disableOne_getFilter_other hne)
          (disableOne_store_other hne)]
        exact hall a (List.mem_cons_of_mem _ ha)
      obtain ⟨h1, h2, h3⟩ := ((ih (disableOne st x) hnd').1) hallrest
      refine ⟨?_, ?_, ?_⟩
      · show Action.event (.filterEnableDisable x) :: _ = _
        rw [List.map_cons, h1]
      · intro a ha
        cases List.mem_cons.mp ha with
        | inl he =>
          subst he
          have hfr := h3 a hx_rest
          rw [isFilterEnabled_congr hfr.1 hfr.2]
          exact (disableOne_post hf).2
        | inr he => exact h2 a he
      · intro j hj
        have hjx : j ≠ x := fun he => hj (he ▸ List.mem_cons_self x rest)
        have hjr : j ∉ rest := fun hm => hj (List.mem_cons_of_mem _ hm)
        have hfr := h3 j hjr
        exact ⟨hfr.1.trans (disableOne_getFilter_other hjx),
               hfr.2.trans (disableOne_store_other hjx)⟩
    · intro pre b post hsplit hpre hb
      cases pre with
      | nil =>
        have hxb : x = b := by
          have := congrArg (fun l => l.head?) hsplit
          simpa using this
        subst hxb
        rw [disableFiltersGo_cons_disabled hb]
        exact ⟨rfl, fun a ha => absurd ha (List.not_mem_nil a), fun j _ => ⟨rfl, rfl⟩⟩
      | cons p pre' =>
        have hxp : x = p ∧ rest = pre' ++ b :: post := by
          rw [List.cons_append] at hsplit
          exact ⟨List.head_eq_of_cons_eq hsplit, List.tail_eq_of_cons_eq hsplit⟩
        obtain ⟨hxp1, hrest⟩ := hxp
        subst hxp1
        have hx : isFilterEnabled st x = true := hpre x (List.mem_cons_self _ _)
        obtain ⟨f, hf⟩ := isFilterEnabled_exists hx
        rw [disableFiltersGo_cons_enabled hx]
        have hbx : b ≠ x := by
          intro he
          apply hx_rest
          rw [hrest, ← he]
          exact List.mem_append_right _ (List.mem_cons_self _ _)
        have hpre' : ∀ a ∈ pre', isFilterEnabled (disableOne st x) a = true := by
          intro a ha
          have hax : a ≠ x := by
            intro he
            apply hx_rest
            rw [hrest]
            exact List.mem_append_left _ (he ▸ ha)
          rw [isFilterEnabled_congr (disableOne_getFilter_other hax)
            (disableOne_store_other hax)]
          exact hpre a (List.mem_cons_of_mem _ ha)
        have hb' : isFilterEnabled (disableOne st x) b = false := by
          rw [isFilterEnabled_congr (disableOne_getFilter_other hbx)
            (disableOne_store_other hbx)]
          exact hb
        obtain ⟨h1, h2, h3⟩ := ((ih (disableOne st x) hnd').2) pre' b post hrest hpre' hb'
        have hxpre' : x ∉ pre' := by
          intro hm
          apply hx_rest
          rw [hrest]
          exact List.mem_append_left _ hm
        refine ⟨?_, ?_, ?_⟩
        · show Action.event (.filterEnableDisable x) :: _ = _
          rw [List.map_cons, h1]
        · intro a ha
          cases List.mem_cons.mp ha with
          | inl he =>
            subst he
            have hfr := h3 a hxpre'
            rw [isFilterEnabled_congr hfr.1 hfr.2]
            exact (disableOne_post hf).2
          | inr he => exact h2 a he
        · intro j hj
          have hjx : j ≠ x := fun he => hj (he ▸ List.mem_cons_self x pre')
          have hjp : j ∉ pre' := fun hm => hj (List.mem_cons_of_mem _ hm)
          have hfr := h3 j hjp
          exact ⟨hfr.1.trans (disableOne_getFilter_other hjx),
                 hfr.2.trans (disableOne_store_other hjx)⟩

/-- C3: `disableFilters` walks the deduplicated ids left to right, disabling
each enabled id with a `FILTER_ENABLE_DISABLE` event; at the first id that is
not enabled the batch stops, leaving that id and every later id (catalog
entry, persisted state and enabled flag) unchanged and emitting no further
events. -/
theorem disableFilters_spec (st : MState) (filterIds : List Nat) :
    ((∀ a ∈ removeDuplicates filterIds, isFilterEnabled st a = true) →
      (disableFilters st filterIds).2 =
        (removeDuplicates filterIds).map (fun a => Action.event (.filterEnableDisable a)) ∧
      (∀ a ∈ removeDuplicates filterIds,
        isFilterEnabled (disableFilters st filterIds).1 a = false)) ∧
    (∀ pre b post, removeDuplicates filterIds = pre ++ b :: post →
      (∀ a ∈ pre, isFilterEnabled st a = true) → isFilterEnabled st b = false →
      (disableFilters st filterIds).2 =
        pre.map (fun a => Action.event (.filterEnableDisable a)) ∧
      (∀ a ∈ pre, isFilterEnabled (disableFilters st filterIds).1 a = false) ∧
      (∀ c ∈ b :: post, getFilterSt (disableFilters st filterIds).1 c = getFilterSt st c ∧
        storeGet (disableFilters st filterIds).1.store c = storeGet st.store c ∧
        isFilterEnabled (disableFilters st filterIds).1 c = isFilterEnabled st c)) := by
  have hgo := disableFiltersGo_spec (removeDuplicates filterIds) st
    (nodup_removeDuplicates _)
  constructor
  · intro hall
    obtain ⟨h1, h2, _⟩ := hgo.1 hall
    exact ⟨h1, h2⟩
  · intro pre b post hsplit hpre hb
    obtain ⟨h1, h2, h3⟩ := hgo.2 pre b post hsplit hpre hb
    refine ⟨h1, h2, ?_⟩
    intro c hc
    have hnd := nodup_removeDuplicates filterIds
    rw [hsplit] at hnd
    have hdisj := (List.nodup_append.mp hnd).2.2
    have hcpre : c ∉ pre := fun hcp => hdisj hcp hc
    have hfr := h3 c hcpre
    exact ⟨hfr.1, hfr.2, isFilterEnabled_congr hfr.1 hfr.2⟩

/-- Witness for C3: ids `[1, 2, 3, 1]` on a state where 1 and 3 are enabled
and 2 is not: only 1 is disabled, one event fires, and 3 is untouched. -/
theorem disableFilters_spec_witness :
    (removeDuplicates [1, 2, 3, 1] = [1] ++ 2 :: [3]) ∧
    ((disableFilters stDis [1, 2, 3, 1]).2 =
        [1].map (fun a => Action.event (.filterEnableDisable a)) ∧
      (∀ a ∈ [1], isFilterEnabled (disableFilters stDis [1, 2, 3, 1]).1 a = false) ∧
      (∀ c ∈ 2 :: [3],
        getFilterSt (disableFilters stDis [1, 2, 3, 1]).1 c = getFilterSt stDis c ∧
        storeGet (disableFilters stDis [1, 2, 3, 1]).1.store c = storeGet stDis.store c ∧
        isFilterEnabled (disableFilters stDis [1, 2, 3, 1]).1 c =
          isFilterEnabled stDis c)) :=
  ⟨by decide,
    (disableFilters_spec stDis [1, 2, 3, 1]).2 [1] 2 [3] (by decide) (by decide)
      (by decide)⟩

/-! ## addAntiBannerFilter behaviour -/

theorem present_of_map_eq {stA stB : MState}
    (h : stB.filters.map Filter.filterId = stA.filters.map Filter.filterId) (j : Nat) :
    present stB j = present stA j := by
  rw [present, present, getFilterSt, getFilterSt]
  by_cases hb : (findBy Filter.filterId j stB.filters).isSome = true
  · rw [hb]
    have hmem := (@findBy_isSome_iff_mem Filter Filter.filterId j stB.filters).mp hb
    rw [h] at hmem
    exact ((@findBy_isSome_iff_mem Filter Filter.filterId j stA.filters).mpr hmem).symm
  · have hb' : (findBy Filter.filterId j stB.filters).isSome = false :=
      Bool.not_eq_true _ ▸ hb
    rw [hb']
    symm
    rw [Bool.eq_false_iff]
    intro hA
    apply hb
    apply (@findBy_isSome_iff_mem Filter Filter.filterId j stB.filters).mpr
    rw [h]
    exact (@findBy_isSome_iff_mem Filter Filter.filterId j stA.filters).mp hA

theorem getFilterSt_none_of_not_present {st : MState} {j : Nat}
    (h : present st j = false) : getFilterSt st j = none := by
  rw [present] at h
  cases hf : getFilterSt st j with
  | none => rfl
  | some f => rw [hf] at h; exact Bool.noConfusion h

theorem addAntiBannerFilter_absent {env : Env} {st : MState} {fid : Nat}
    (hf : getFilterSt st fid = none) :
    addAntiBannerFilter env st fid = none := by
  rw [addAntiBannerFilter, hf]

/-- Full behaviour of `addAntiBannerFilter` on a present filter: the
done-callback receives `installed || loaded || loadOutcome`; a failed load
leaves the state untouched; a success ends with the filter installed; the
loader is invoked exactly when the filter is neither installed nor loaded. -/
theorem addAntiBannerFilter_spec (env : Env) (st : MState) {fid : Nat} {f : Filter}
    (hf : getFilterSt st fid = some f) :
    ∃ st1 tr1,
      addAntiBannerFilter env st fid =
        some (st1, tr1, (f.installed || f.loaded || env.loadOutcome fid)) ∧
      st1.filters.map Filter.filterId = st.filters.map Filter.filterId ∧
      st1.groups = st.groups ∧
      st1.tags = st.tags ∧
      (∀ j, j ≠ fid → getFilterSt st1 j = getFilterSt st j ∧
        storeGet st1.store j = storeGet st.store j) ∧
      ((f.installed || f.loaded || env.loadOutcome fid) = false →
        st1 = st ∧ tr1 = [.loadStart fid, .loadDone fid false]) ∧
      ((f.installed || f.loaded || env.loadOutcome fid) = true →
        ∃ f1, getFilterSt st1 fid = some f1 ∧ f1.installed = true) ∧
      countFilterEnableEvents tr1 = 0 ∧
      (tr1.filter isLoadAct = [] ∨
        ∃ s, tr1.filter isLoadAct = [.loadStart fid, .loadDone fid s]) ∧
      (∀ a ∈ tr1, ∀ j, actionFid a = some j → j = fid) := by
  have hinst1 : getFilterSt { st with filters := (updateBy Filter.filterId fid
      (fun x => { x with installed := true }) st.filters) } fid =
      some { f with installed := true } :=
    @findBy_updateBy_self Filter Filter.filterId
      (fun x => { x with installed := true }) (fun a => rfl) fid f st.filters hf
  have hOn : onFilterLoaded st fid true =
      (persistFilter { st with filters := (updateBy Filter.filterId fid
          (fun x => { x with installed := true }) st.filters) } fid,
       [.event (.filterAddRemove fid)]) := by
    rw [onFilterLoaded, if_pos rfl]
  have hOnState : ∀ j, j ≠ fid →
      getFilterSt (onFilterLoaded st fid true).1 j = getFilterSt st j ∧
      storeGet (onFilterLoaded st fid true).1.store j = storeGet st.store j := by
    intro j hj
    rw [hOn]
    constructor
    · rw [getFilterSt_persistFilter]
      exact @findBy_updateBy_of_ne Filter Filter.filterId
        (fun x => { x with installed := true }) (fun a => rfl) j fid hj st.filters
    · rw [persistFilter_store_other _ _ hj]
  have hOnMaps : (onFilterLoaded st fid true).1.filters.map Filter.filterId =
      st.filters.map Filter.filterId ∧
      (onFilterLoaded st fid true).1.groups = st.groups ∧
      (onFilterLoaded st fid true).1.tags = st.tags := by
    rw [hOn]
    refine ⟨?_, persistFilter_groups _ _, persistFilter_tags _ _⟩
    rw [persistFilter_filters]
    exact @map_key_updateBy Filter Filter.filterId
      (fun x => { x with installed := true }) (fun a => rfl) fid st.filters
  have hOnGet : getFilterSt (onFilterLoaded st fid true).1 fid =
      some { f with installed := true } := by
    rw [hOn, getFilterSt_persistFilter]
    exact hinst1
  by_cases hi : f.installed = true
  · -- already installed: immediate success, nothing happens
    have heq : addAntiBannerFilter env st fid = some (st, [], true) := by
      rw [addAntiBannerFilter, hf]
      show (if f.installed = true then some (st, ([], true))
            else if f.loaded = true then
              some ((onFilterLoaded st fid true).1, ((onFilterLoaded st fid true).2, true))
            else
              some ((onFilterLoaded st fid (env.loadOutcome fid)).1,
                (.loadStart fid :: .loadDone fid (env.loadOutcome fid) ::
                    (onFilterLoaded st fid (env.loadOutcome fid)).2,
                  env.loadOutcome fid))) = some (st, ([], true))
      rw [if_pos hi]
    rw [hi]
    refine ⟨st, [], ?_, rfl, rfl, rfl, fun j _ => ⟨rfl, rfl⟩, ?_, ?_, rfl,
      Or.inl rfl, fun a ha => absurd ha (List.not_mem_nil a)⟩
    · show addAntiBannerFilter env st fid = some (st, [], (true || f.loaded || env.loadOutcome fid))
      rw [Bool.true_or]
      exact heq
    · intro hfalse
      rw [Bool.true_or] at hfalse
      exact Bool.noConfusion hfalse
    · intro _
      exact ⟨f, hf, hi⟩
  · have hi' : f.installed = false := Bool.not_eq_true _ ▸ hi
    by_cases hl : f.loaded = true
    · -- body already loaded: install and emit FILTER_ADD_REMOVE, no loader call
      have heq : addAntiBannerFilter env st fid =
          some ((onFilterLoaded st fid true).1, (onFilterLoaded st fid true).2, true) := by
        rw [addAntiBannerFilter, hf]
        show (if f.installed = true then some (st, ([], true))
              else if f.loaded = true then
                some ((onFilterLoaded st fid true).1, ((onFilterLoaded st fid true).2, true))
              else
                some ((onFilterLoaded st fid (env.loadOutcome fid)).1,
                  (.loadStart fid :: .loadDone fid (env.loadOutcome fid) ::
                      (onFilterLoaded st fid (env.loadOutcome fid)).2,
                    env.loadOutcome fid))) = _
        rw [if_neg (by rw [hi']; exact Bool.false_ne_true), if_pos hl]
      have hsucc : (f.installed || f.loaded || env.loadOutcome fid) = true := by
        rw [hl, Bool.or_true, Bool.true_or]
      refine ⟨(onFilterLoaded st fid true).1, (onFilterLoaded st fid true).2,
        ?_, hOnMaps.1, hOnMaps.2.1, hOnMaps.2.2, hOnState, ?_, ?_, ?_, ?_, ?_⟩
      · rw [hsucc]
        exact heq
      · intro hfalse
        rw [hsucc] at hfalse
        exact Bool.noConfusion hfalse
      · intro _
        exact ⟨{ f with installed := true }, hOnGet, rfl⟩
      · rw [hOn]
        rfl
      · rw [hOn]
        exact Or.inl rfl
      · intro a ha j hj
        rw [hOn] at ha
        have : a = Action.event (.filterAddRemove fid) := by
          cases List.mem_cons.mp ha with
          | inl h => exact h
          | inr h => exact absurd h (List.not_mem_nil a)
        subst this
        exact Option.some.inj hj.symm
    · -- loader invoked
      have hl' : f.loaded = false := Bool.not_eq_true _ ▸ hl
      have heq : addAntiBannerFilter env st fid =
          some ((onFilterLoaded st fid (env.loadOutcome fid)).1,
            .loadStart fid :: .loadDone fid (env.loadOutcome fid) ::
                (onFilterLoaded st fid (env.loadOutcome fid)).2,
            env.loadOutcome fid) := by
        rw [addAntiBannerFilter, hf]
        show (if f.installed = true then some (st, ([], true))
              else if f.loaded = true then
                some ((onFilterLoaded st fid true).1, ((onFilterLoaded st fid true).2, true))
              else
                some ((onFilterLoaded st fid (env.loadOutcome fid)).1,
                  (.loadStart fid :: .loadDone fid (env.loadOutcome fid) ::
                      (onFilterLoaded st fid (env.loadOutcome fid)).2,
                    env.loadOutcome fid))) = _
        rw [if_neg (by rw [hi']; exact Bool.false_ne_true),
          if_neg (by rw [hl']; exact Bool.false_ne_true)]
      have hexpr : (f.installed || f.loaded || env.loadOutcome fid) = env.loadOutcome fid := by
        rw [hi', hl']
        rfl
      by_cases hout : env.loadOutcome fid = true
      · refine ⟨(onFilterLoaded st fid (env.loadOutcome fid)).1,
          .loadStart fid :: .loadDone fid (env.loadOutcome fid) ::
            (onFilterLoaded st fid (env.loadOutcome fid)).2,
          ?_, ?_, ?_, ?_, ?_, ?_, ?_, ?_, ?_, ?_⟩
        · rw [hexpr]
          exact heq
        · rw [hout, hOnMaps.1]
        · rw [hout, hOnMaps.2.1]
        · rw [hout, hOnMaps.2.2]
        · intro j hj
          rw [hout]
          exact hOnState j hj
        · intro hfalse
          rw [hexpr] at hfalse
          rw [hfalse] at hout
          exact Bool.noConfusion hout
        · intro _
          rw [hout]
          exact ⟨{ f with installed := true }, hOnGet, rfl⟩
        · rw [hout, hOn]
          rfl
        · rw [hout, hOn]
          right
          exact ⟨true, rfl⟩
        · intro a ha j hj
          rw [hout, hOn] at ha
          cases List.mem_cons.mp ha with
          | inl h => subst h; exact Option.some.inj hj.symm
          | inr h =>
            cases List.mem_cons.mp h with
            | inl h2 => subst h2; exact Option.some.inj hj.symm
            | inr h2 =>
              have : a = Action.event (.filterAddRemove fid) := by
                cases List.mem_cons.mp h2 with
                | inl h3 => exact h3
                | inr h3 => exact absurd h3 (List.not_mem_nil a)
              subst this
              exact Option.some.inj hj.symm
      · have hout' : env.loadOutcome fid = false := Bool.not_eq_true _ ▸ hout
        have hOnF : onFilterLoaded st fid false = (st, []) := by
          rw [onFilterLoaded, if_neg (by exact Bool.false_ne_true)]
        refine ⟨st, [.loadStart fid, .loadDone fid false],
          ?_, rfl, rfl, rfl, fun j _ => ⟨rfl, rfl⟩, fun _ => ⟨rfl, rfl⟩, ?_, rfl,
          Or.inr ⟨false, rfl⟩, ?_⟩
        · rw [hexpr, hout']
          rw [heq, hout', hOnF]
        · intro htrue
          rw [hexpr, hout'] at htrue
          exact Bool.noConfusion htrue
        · intro a ha j hj
          cases List.mem_cons.mp ha with
          | inl h => subst h; exact Option.some.inj hj.symm
          | inr h =>
            have : a = Action.loadDone fid false := by
              cases List.mem_cons.mp h with
              | inl h2 => exact h2
              | inr h2 => exact absurd h2 (List.not_mem_nil a)
            subst this
            exact Option.some.inj hj.symm

/-! ## loadNextFilter unfolding -/

theorem loadNextFilter_cons_thrown_head {env : Env} {i : Nat} {rest : List Nat}
    {st : MState} (ha : addAntiBannerFilter env st i = none) :
    loadNextFilter env (i :: rest) st = .thrown st [] := by
  rw [loadNextFilter, ha]

theorem loadNextFilter_cons_success_ok {env : Env} {i : Nat} {rest : List Nat}
    {st st1 st2 st3 : MState} {tr1 tr2 tr3 : List Action}
    (ha : addAntiBannerFilter env st i = some (st1, tr1, true))
    (he : enableFilter st1 i = some (st2, tr2))
    (hr : loadNextFilter env rest st2 = .ok st3 tr3) :
    loadNextFilter env (i :: rest) st = .ok st3 (tr1 ++ tr2 ++ tr3) := by
  rw [loadNextFilter]
  split
  · rename_i heq
    exact Option.noConfusion (ha.symm.trans heq)
  · rename_i st1' tr1' succ' heq
    have hp := ha.symm.trans heq
    injection hp with hp
    rw [Prod.mk.injEq, Prod.mk.injEq] at hp
    obtain ⟨h1, h2, h3⟩ := hp
    subst h1
    subst h2
    subst h3
    rw [if_pos rfl]
    split
    · rename_i heq2
      exact Option.noConfusion (he.symm.trans heq2)
    · rename_i st2' tr2' heq2
      have hp2 := he.symm.trans heq2
      injection hp2 with hp2
      rw [Prod.mk.injEq] at hp2
      obtain ⟨h4, h5⟩ := hp2
      subst h4
      subst h5
      rw [hr]

theorem loadNextFilter_cons_success_thrown {env : Env} {i : Nat} {rest : List Nat}
    {st st1 st2 st3 : MState} {tr1 tr2 tr3 : List Action}
    (ha : addAntiBannerFilter env st i = some (st1, tr1, true))
    (he : enableFilter st1 i = some (st2, tr2))
    (hr : loadNextFilter env rest st2 = .thrown st3 tr3) :
    loadNextFilter env (i :: rest) st = .thrown st3 (tr1 ++ tr2 ++ tr3) := by
  rw [loadNextFilter]
  split
  · rename_i heq
    exact Option.noConfusion (ha.symm.trans heq)
  · rename_i st1' tr1' succ' heq
    have hp := ha.symm.trans heq
    injection hp with hp
    rw [Prod.mk.injEq, Prod.mk.injEq] at hp
    obtain ⟨h1, h2, h3⟩ := hp
    subst h1
    subst h2
    subst h3
    rw [if_pos rfl]
    split
    · rename_i heq2
      exact Option.noConfusion (he.symm.trans heq2)
    · rename_i st2' tr2' heq2
      have hp2 := he.symm.trans heq2
      injection hp2 with hp2
      rw [Prod.mk.injEq] at hp2
      obtain ⟨h4, h5⟩ := hp2
      subst h4
      subst h5
      rw [hr]

theorem loadNextFilter_cons_failure_ok {env : Env} {i : Nat} {rest : List Nat}
    {st st1 st3 : MState} {tr1 tr3 : List Action}
    (ha : addAntiBannerFilter env st i = some (st1, tr1, false))
    (hr : loadNextFilter env rest st1 = .ok st3 tr3) :
    loadNextFilter env (i :: rest) st = .ok st3 (tr1 ++ tr3) := by
  rw [loadNextFilter]
  split
  · rename_i heq
    exact Option.noConfusion (ha.symm.trans heq)
  · rename_i st1' tr1' succ' heq
    have hp := ha.symm.trans heq
    injection hp with hp
    rw [Prod.mk.injEq, Prod.mk.injEq] at hp
    obtain ⟨h1, h2, h3⟩ := hp
    subst h1
    subst h2
    subst h3
    rw [if_neg (by exact Bool.false_ne_true)]
    rw [hr]

theorem loadNextFilter_cons_failure_thrown {env : Env} {i : Nat} {rest : List Nat}
    {st st1 st3 : MState} {tr1 tr3 : List Action}
    (ha : addAntiBannerFilter env st i = some (st1, tr1, false))
    (hr : loadNextFilter env rest st1 = .thrown st3 tr3) :
    loadNextFilter env (i :: rest) st = .thrown st3 (tr1 ++ tr3) := by
  rw [loadNextFilter]
  split
  · rename_i heq
    exact Option.noConfusion (ha.symm.trans heq)
  · rename_i st1' tr1' succ' heq
    have hp := ha.symm.trans heq
    injection hp with hp
    rw [Prod.mk.injEq, Prod.mk.injEq] at hp
    obtain ⟨h1, h2, h3⟩ := hp
    subst h1
    subst h2
    subst h3
    rw [if_neg (by exact Bool.false_ne_true)]
    rw [hr]

/-! ## The sequential batch — main induction -/

/-- Full behaviour of `loadNextFilter` on a duplicate-free list of catalog
filter ids: the run completes, its trace splits into consecutive per-id
segments each containing at most one loader start/done pair, a failed fresh
load leaves that filter untouched, and every id whose cycle succeeds ends up
enabled and installed. -/
theorem loadNextFilter_spec (env : Env) :
    ∀ (d : List Nat) (st : MState), d.Nodup → (∀ i ∈ d, present st i = true) →
      ∃ st' tr, loadNextFilter env d st = .ok st' tr ∧
        st'.filters.map Filter.filterId = st.filters.map Filter.filterId ∧
        st'.groups.map Group.groupId = st.groups.map Group.groupId ∧
        st'.tags = st.tags ∧
        (∀ j, j ∉ d → getFilterSt st' j = getFilterSt st j ∧
          storeGet st'.store j = storeGet st.store j) ∧
        (∀ i ∈ d, ∀ f, getFilterSt st i = some f →
          ((f.installed || f.loaded || env.loadOutcome i) = true →
            isFilterEnabled st' i = true ∧
            ∃ f1, getFilterSt st' i = some f1 ∧ f1.installed = true) ∧
          ((f.installed || f.loaded || env.loadOutcome i) = false →
            getFilterSt st' i = some f ∧
            storeGet st'.store i = storeGet st.store i)) ∧
        (∃ segs : List (List Action), tr = segs.join ∧ segs.length = d.length ∧
          ∀ k (hk : k < segs.length) (hk' : k < d.length),
            (∀ a ∈ segs.get ⟨k, hk⟩, ∀ j, actionFid a = some j →
              j = d.get ⟨k, hk'⟩) ∧
            ((segs.get ⟨k, hk⟩).filter isLoadAct = [] ∨
              ∃ s, (segs.get ⟨k, hk⟩).filter isLoadAct =
                [.loadStart (d.get ⟨k, hk'⟩), .loadDone (d.get ⟨k, hk'⟩) s])) ∧
        (∀ gid, findBy Group.groupId gid st'.groups ≠
            findBy Group.groupId gid st.groups →
          Action.event (.filterGroupEnableDisable gid) ∈ tr) := by
  intro d
  induction d with
  | nil =>
    intro st _ _
    refine ⟨st, [], rfl, rfl, rfl, rfl, fun j _ => ⟨rfl, rfl⟩,
      fun i hi => absurd hi (List.not_mem_nil i),
      ⟨[], rfl, rfl, fun k hk _ => absurd hk (by simp)⟩,
      fun gid hne => absurd rfl hne⟩
  | cons i rest ih =>
    intro st hnd hpres
    have hirest : i ∉ rest := (List.nodup_cons.mp hnd).1
    have hnd' : rest.Nodup := (List.nodup_cons.mp hnd).2
    have hpi : present st i = true := hpres i (List.mem_cons_self _ _)
    obtain ⟨f, hf⟩ : ∃ f, getFilterSt st i = some f := by
      rw [present] at hpi
      cases hgf : getFilterSt st i with
      | none => rw [hgf] at hpi; exact Bool.noConfusion hpi
      | some f => exact ⟨f, rfl⟩
    obtain ⟨st1, tr1, haeq, hmap1, hgr1, htg1, hfr1, hfail1, hsucc1, hcnt1, hshape1, hfid1⟩ :=
      addAntiBannerFilter_spec env st hf
    by_cases hsucc : (f.installed || f.loaded || env.loadOutcome i) = true
    · rw [hsucc] at haeq
      obtain ⟨f1, hgf1, hinst1⟩ := hsucc1 hsucc
      have hstep : ∃ st2 tr2, enableFilter st1 i = some (st2, tr2) ∧
          isFilterEnabled st2 i = true ∧
          (∃ f2, getFilterSt st2 i = some f2 ∧ f2.installed = true) ∧
          (∀ j, j ≠ i → getFilterSt st2 j = getFilterSt st1 j ∧
            storeGet st2.store j = storeGet st1.store j) ∧
          st2.filters.map Filter.filterId = st1.filters.map Filter.filterId ∧
          st2.groups.map Group.groupId = st1.groups.map Group.groupId ∧
          st2.tags = st1.tags ∧
          (∀ gid, findBy Group.groupId gid st2.groups ≠
              findBy Group.groupId gid st1.groups →
            Action.event (.filterGroupEnableDisable gid) ∈ tr2) ∧
          tr2.filter isLoadAct = [] ∧
          (∀ a ∈ tr2, ∀ j, actionFid a = some j → j = i) := by
        by_cases hen : isFilterEnabled st1 i = true
        · exact ⟨st1, [], enableFilter_already hen, hen, ⟨f1, hgf1, hinst1⟩,
            fun j _ => ⟨rfl, rfl⟩, rfl, rfl, rfl, fun gid hne => absurd rfl hne, rfl,
            fun a ha => absurd ha (List.not_mem_nil a)⟩
        · have hen' : isFilterEnabled st1 i = false := Bool.not_eq_true _ ▸ hen
          obtain ⟨st2, tr2, heq2, hget2, hen2, hst2, hcnt2, hfr2, hmapf2, hmapg2, htg2,
            hchg2, hload2, hfid2⟩ := enableFilter_not_enabled hen' hgf1
          exact ⟨st2, tr2, heq2, hen2, ⟨{ f1 with enabled := true }, hget2, hinst1⟩,
            hfr2, hmapf2, hmapg2, htg2, hchg2, hload2, hfid2⟩
      obtain ⟨st2, tr2, heq2, hen2, hinst2, hfr2, hmapf2, hmapg2, htg2, hchg2,
        hload2, hfid2⟩ := hstep
      have hpres2 : ∀ x ∈ rest, present st2 x = true := by
        intro x hx
        rw [present_of_map_eq hmapf2, present_of_map_eq hmap1]
        exact hpres x (List.mem_cons_of_mem _ hx)
      obtain ⟨st', tr3, hrun, hmap3, hmapg3, htg3, hfr3, hids3,
        ⟨segs, hjoin, hlen, hsegs⟩, hgrp3⟩ := ih st2 hnd' hpres2
      have hLN : loadNextFilter env (i :: rest) st = .ok st' (tr1 ++ tr2 ++ tr3) :=
        loadNextFilter_cons_success_ok haeq heq2 hrun
      refine ⟨st', tr1 ++ tr2 ++ tr3, hLN, ?_, ?_, ?_, ?_, ?_, ?_, ?_⟩
      · rw [hmap3, hmapf2, hmap1]
      · rw [hmapg3, hmapg2, hgr1]
      · rw [htg3, htg2, htg1]
      · intro j hj
        have hji : j ≠ i := fun he => hj (he ▸ List.mem_cons_self i rest)
        have hjr : j ∉ rest := fun hm => hj (List.mem_cons_of_mem _ hm)
        have h3 := hfr3 j hjr
        have h2 := hfr2 j hji
        have h1 := hfr1 j hji
        exact ⟨h3.1.trans (h2.1.trans h1.1), h3.2.trans (h2.2.trans h1.2)⟩
      · intro x hx fx hfx
        cases List.mem_cons.mp hx with
        | inl he =>
          subst he
          have hfxf : f = fx := Option.some.inj (hf.symm.trans hfx)
          subst hfxf
          constructor
          · intro _
            have hifr := hfr3 x hirest
            constructor
            · rw [isFilterEnabled_congr hifr.1 hifr.2]
              exact hen2
            · obtain ⟨f2, hgf2, hi2⟩ := hinst2
              exact ⟨f2, by rw [hifr.1]; exact hgf2, hi2⟩
          · intro hfalse
            rw [hsucc] at hfalse
            exact Bool.noConfusion hfalse
        | inr he =>
          have hxi : x ≠ i := fun hee => hirest (hee ▸ he)
          have hfx2 : getFilterSt st2 x = some fx := by
            rw [(hfr2 x hxi).1, (hfr1 x hxi).1]
            exact hfx
          have hcl := hids3 x he fx hfx2
          constructor
          · intro ht
            exact hcl.1 ht
          · intro hfalse
            obtain ⟨hg, hs⟩ := hcl.2 hfalse
            refine ⟨hg, ?_⟩
            rw [hs, (hfr2 x hxi).2, (hfr1 x hxi).2]
      · refine ⟨(tr1 ++ tr2) :: segs, ?_, ?_, ?_⟩
        · show tr1 ++ tr2 ++ tr3 = (tr1 ++ tr2) ++ List.join segs
          rw [hjoin]
        · rw [List.length_cons, hlen, List.length_cons]
        · intro k hk hk'
          cases k with
          | zero =>
            constructor
            · intro a ha j hj
              cases List.mem_append.mp ha with
              | inl h => exact hfid1 a h j hj
              | inr h => exact hfid2 a h j hj
            · show (tr1 ++ tr2).filter isLoadAct = [] ∨
                ∃ s, (tr1 ++ tr2).filter isLoadAct = [.loadStart i, .loadDone i s]
              rw [List.filter_append, hload2, List.append_nil]
              exact hshape1
          | succ k' =>
            have hk2 : k' < segs.length := by
              rw [List.length_cons] at hk
              exact Nat.succ_lt_succ_iff.mp hk
            have hk2' : k' < rest.length := by
              rw [List.length_cons] at hk'
              exact Nat.succ_lt_succ_iff.mp hk'
            exact hsegs k' hk2 hk2'
      · intro gid hne
        by_cases hmid : findBy Group.groupId gid st2.groups =
            findBy Group.groupId gid st.groups
        · have hch : findBy Group.groupId gid st'.groups ≠
              findBy Group.groupId gid st2.groups := by
            intro he
            exact hne (he.trans hmid)
          exact List.mem_append_right _ (hgrp3 gid hch)
        · have hch : findBy Group.groupId gid st2.groups ≠
              findBy Group.groupId gid st1.groups := by
            rw [hgr1]
            exact hmid
          exact List.mem_append_left _ (List.mem_append_right _ (hchg2 gid hch))
    · have hsucc' : (f.installed || f.loaded || env.loadOutcome i) = false :=
        Bool.not_eq_true _ ▸ hsucc
      rw [hsucc'] at haeq
      obtain ⟨hst1, _⟩ := hfail1 hsucc'
      rw [hst1] at haeq
      have hpres1 : ∀ x ∈ rest, present st x = true :=
        fun x hx => hpres x (List.mem_cons_of_mem _ hx)
      obtain ⟨st', tr3, hrun, hmap3, hmapg3, htg3, hfr3, hids3,
        ⟨segs, hjoin, hlen, hsegs⟩, hgrp3⟩ := ih st hnd' hpres1
      have hLN : loadNextFilter env (i :: rest) st = .ok st' (tr1 ++ tr3) :=
        loadNextFilter_cons_failure_ok haeq hrun
      refine ⟨st', tr1 ++ tr3, hLN, hmap3, hmapg3, htg3, ?_, ?_, ?_, ?_⟩
      · intro j hj
        exact hfr3 j (fun hm => hj (List.mem_cons_of_mem _ hm))
      · intro x hx fx hfx
        cases List.mem_cons.mp hx with
        | inl he =>
          subst he
          have hfxf : f = fx := Option.some.inj (hf.symm.trans hfx)
          subst hfxf
          constructor
          · intro ht
            rw [hsucc'] at ht
            exact Bool.noConfusion ht
          · intro _
            have hifr := hfr3 x hirest
            exact ⟨hifr.1.trans hfx, hifr.2⟩
        | inr he => exact hids3 x he fx hfx
      · refine ⟨tr1 :: segs, ?_, ?_, ?_⟩
        · show tr1 ++ tr3 = tr1 ++ List.join segs
          rw [hjoin]
        · rw [List.length_cons, hlen, List.length_cons]
        · intro k hk hk'
          cases k with
          | zero =>
            exact ⟨fun a ha j hj => hfid1 a ha j hj, hshape1⟩
          | succ k' =>
            have hk2 : k' < segs.length := by
              rw [List.length_cons] at hk
              exact Nat.succ_lt_succ_iff.mp hk
            have hk2' : k' < rest.length := by
              rw [List.length_cons] at hk'
              exact Nat.succ_lt_succ_iff.mp hk'
            exact hsegs k' hk2 hk2'
      · intro gid hne
        have hgr1' : findBy Group.groupId gid st'.groups ≠
            findBy Group.groupId gid st.groups := hne
        exact List.mem_append_right _ (hgrp3 gid hgr1')

/-! ## Batch claims -/

theorem mem_removeDuplicatesAux_of_mem :
    ∀ (l seen : List Nat) {x : Nat}, x ∈ l → x ∉ seen →
      x ∈ removeDuplicatesAux seen l := by
  intro l
  induction l with
  | nil =>
    intro seen x h _
    exact absurd h (List.not_mem_nil x)
  | cons y ys ih =>
    intro seen x h hs
    rw [removeDuplicatesAux]
    by_cases hy : y ∈ seen
    · rw [if_pos hy]
      have hxy : x ≠ y := fun he => hs (he ▸ hy)
      exact ih seen ((List.mem_cons.mp h).resolve_left hxy) hs
    · rw [if_neg hy]
      by_cases hxy : x = y
      · rw [hxy]
        exact List.mem_cons_self _ _
      · refine List.mem_cons_of_mem _ (ih (y :: seen)
          ((List.mem_cons.mp h).resolve_left hxy) ?_)
        intro hm
        cases List.mem_cons.mp hm with
        | inl h2 => exact hxy h2
        | inr h2 => exact hs h2

theorem mem_removeDuplicates_of_mem {l : List Nat} {x : Nat} (h : x ∈ l) :
    x ∈ removeDuplicates l :=
  mem_removeDuplicatesAux_of_mem l [] h (List.not_mem_nil x)

/-- C1: on a batch of catalog filter ids, `addAndEnableFilters` runs the
loader strictly sequentially — the trace decomposes into consecutive per-id
segments in deduplicated input order, each holding at most one
`loadStart`/`loadDone` pair, so a later id's load begins only after the
earlier id's cycle completed — and a load failure for one id leaves that
filter's catalog object and enabled status unchanged while every id of the
list whose load succeeds still ends up enabled and installed (the batch is
not aborted). -/
theorem addAndEnableFilters_sequential (env : Env) (st : MState) (ids : List Nat)
    (hpres : ∀ i ∈ ids, present st i = true) :
    ∃ st' tr, addAndEnableFilters env st ids = .ok st' tr ∧
      (∃ segs : List (List Action), tr = segs.join ∧
        segs.length = (removeDuplicates ids).length ∧
        ∀ k (hk : k < segs.length) (hk' : k < (removeDuplicates ids).length),
          (∀ a ∈ segs.get ⟨k, hk⟩, ∀ j, actionFid a = some j →
            j = (removeDuplicates ids).get ⟨k, hk'⟩) ∧
          ((segs.get ⟨k, hk⟩).filter isLoadAct = [] ∨
            ∃ s, (segs.get ⟨k, hk⟩).filter isLoadAct =
              [.loadStart ((removeDuplicates ids).get ⟨k, hk'⟩),
               .loadDone ((removeDuplicates ids).get ⟨k, hk'⟩) s])) ∧
      (∀ i ∈ ids, ∀ f, getFilterSt st i = some f →
        f.installed = false → f.loaded = false → env.loadOutcome i = false →
        getFilterSt st' i = some f ∧
        isFilterEnabled st' i = isFilterEnabled st i) ∧
      (∀ i ∈ ids, env.loadOutcome i = true →
        isFilterEnabled st' i = true ∧
        ∃ f1, getFilterSt st' i = some f1 ∧ f1.installed = true) := by
  by_cases hlen : ids.length = 0
  · have hids : ids = [] := List.length_eq_zero.mp hlen
    subst hids
    refine ⟨st, [], rfl,
      ⟨[], rfl, rfl, fun k hk _ => absurd hk (by simp)⟩,
      fun i hi => absurd hi (List.not_mem_nil i),
      fun i hi => absurd hi (List.not_mem_nil i)⟩
  · have hpd : ∀ i ∈ removeDuplicates ids, present st i = true :=
      fun i hi => hpres i (mem_of_mem_removeDuplicates ids i hi)
    obtain ⟨st', tr, hrun, hmapf, hmapg, htg, hfr, hids', hsegs, hgrp⟩ :=
      loadNextFilter_spec env (removeDuplicates ids) st
        (nodup_removeDuplicates ids) hpd
    have heq : addAndEnableFilters env st ids = .ok st' tr := by
      rw [addAndEnableFilters, if_neg hlen]
      exact hrun
    refine ⟨st', tr, heq, hsegs, ?_, ?_⟩
    · intro i hi f hf hi1 hl1 ho1
      have hid := mem_removeDuplicates_of_mem hi
      have hexpr : (f.installed || f.loaded || env.loadOutcome i) = false := by
        rw [hi1, hl1, ho1]
        rfl
      obtain ⟨hg, hs⟩ := (hids' i hid f hf).2 hexpr
      exact ⟨hg, isFilterEnabled_congr (hg.trans hf.symm) hs⟩
    · intro i hi hout
      have hid := mem_removeDuplicates_of_mem hi
      obtain ⟨f, hf⟩ : ∃ f, getFilterSt st i = some f := by
        have hp := hpd i hid
        rw [present] at hp
        cases hgf : getFilterSt st i with
        | none => rw [hgf] at hp; exact Bool.noConfusion hp
        | some f => exact ⟨f, rfl⟩
      have hexpr : (f.installed || f.loaded || env.loadOutcome i) = true := by
        simp [hout]
      exact (hids' i hid f hf).1 hexpr

theorem addAndEnableFilters_sequential_witness :
    (∀ i ∈ [1, 2], present stSeq i = true) ∧
    (∃ st' tr, addAndEnableFilters envSeq stSeq [1, 2] = .ok st' tr ∧
      (∃ segs : List (List Action), tr = segs.join ∧
        segs.length = (removeDuplicates [1, 2]).length ∧
        ∀ k (hk : k < segs.length) (hk' : k < (removeDuplicates [1, 2]).length),
          (∀ a ∈ segs.get ⟨k, hk⟩, ∀ j, actionFid a = some j →
            j = (removeDuplicates [1, 2]).get ⟨k, hk'⟩) ∧
          ((segs.get ⟨k, hk⟩).filter isLoadAct = [] ∨
            ∃ s, (segs.get ⟨k, hk⟩).filter isLoadAct =
              [.loadStart ((removeDuplicates [1, 2]).get ⟨k, hk'⟩),
               .loadDone ((removeDuplicates [1, 2]).get ⟨k, hk'⟩) s])) ∧
      (∀ i ∈ [1, 2], ∀ f, getFilterSt stSeq i = some f →
        f.installed = false → f.loaded = false → envSeq.loadOutcome i = false →
        getFilterSt st' i = some f ∧
        isFilterEnabled st' i = isFilterEnabled stSeq i) ∧
      (∀ i ∈ [1, 2], envSeq.loadOutcome i = true →
        isFilterEnabled st' i = true ∧
        ∃ f1, getFilterSt st' i = some f1 ∧ f1.installed = true)) :=
  ⟨by decide, addAndEnableFilters_sequential envSeq stSeq [1, 2] (by decide)⟩

/-- Running `loadNextFilter` into a list whose first absent id is `bad`:
the run throws, every traced action belongs to an id before `bad`, and the
catalog object and persisted store entry of every id not before `bad` are
untouched. -/
theorem loadNextFilter_thrown_spec (env : Env) :
    ∀ (pre : List Nat) (bad : Nat) (post : List Nat) (st : MState),
      (pre ++ bad :: post).Nodup →
      (∀ a ∈ pre, present st a = true) → present st bad = false →
      ∃ st' tr, loadNextFilter env (pre ++ bad :: post) st = .thrown st' tr ∧
        (∀ a ∈ tr, ∀ j, actionFid a = some j → j ∈ pre) ∧
        (∀ j, j ∉ pre → getFilterSt st' j = getFilterSt st j ∧
          storeGet st'.store j = storeGet st.store j) := by
  intro pre
  induction pre with
  | nil =>
    intro bad post st _ _ hbad
    refine ⟨st, [], ?_, fun a ha => absurd ha (List.not_mem_nil a),
      fun j _ => ⟨rfl, rfl⟩⟩
    exact loadNextFilter_cons_thrown_head
      (addAntiBannerFilter_absent (getFilterSt_none_of_not_present hbad))
  | cons x pre' ih =>
    intro bad post st hnd hpre hbad
    rw [List.cons_append] at hnd
    have hxnot : x ∉ pre' ++ bad :: post := (List.nodup_cons.mp hnd).1
    have hnd2 : (pre' ++ bad :: post).Nodup := (List.nodup_cons.mp hnd).2
    have hx : present st x = true := hpre x (List.mem_cons_self _ _)
    obtain ⟨f, hf⟩ : ∃ f, getFilterSt st x = some f := by
      rw [present] at hx
      cases hgf : getFilterSt st x with
      | none => rw [hgf] at hx; exact Bool.noConfusion hx
      | some f => exact ⟨f, rfl⟩
    obtain ⟨st1, tr1, haeq, hmap1, hgr1, htg1, hfr1, hfail1, hsucc1, hcnt1,
      hshape1, hfid1⟩ := addAntiBannerFilter_spec env st hf
    by_cases hsucc : (f.installed || f.loaded || env.loadOutcome x) = true
    · rw [hsucc] at haeq
      obtain ⟨f1, hgf1, hinst1⟩ := hsucc1 hsucc
      have hstep : ∃ st2 tr2, enableFilter st1 x = some (st2, tr2) ∧
          (∀ j, j ≠ x → getFilterSt st2 j = getFilterSt st1 j ∧
            storeGet st2.store j = storeGet st1.store j) ∧
          st2.filters.map Filter.filterId = st1.filters.map Filter.filterId ∧
          (∀ a ∈ tr2, ∀ j, actionFid a = some j → j = x) := by
        by_cases hen : isFilterEnabled st1 x = true
        · exact ⟨st1, [], enableFilter_already hen, fun j _ => ⟨rfl, rfl⟩, rfl,
            fun a ha => absurd ha (List.not_mem_nil a)⟩
        · have hen' : isFilterEnabled st1 x = false := Bool.not_eq_true _ ▸ hen
          obtain ⟨st2, tr2, heq2, _, _, _, _, hfr2, hmapf2, _, _, _, _, hfid2⟩ :=
            enableFilter_not_enabled hen' hgf1
          exact ⟨st2, tr2, heq2, hfr2, hmapf2, hfid2⟩
      obtain ⟨st2, tr2, heq2, hfr2, hmapf2, hfid2⟩ := hstep
      have hpre2 : ∀ a ∈ pre', present st2 a = true := by
        intro a ha
        rw [present_of_map_eq hmapf2, present_of_map_eq hmap1]
        exact hpre a (List.mem_cons_of_mem _ ha)
      have hbad2 : present st2 bad = false := by
        rw [present_of_map_eq hmapf2, present_of_map_eq hmap1]
        exact hbad
      obtain ⟨st', tr, hrunT, hacts, hfr⟩ := ih bad post st2 hnd2 hpre2 hbad2
      refine ⟨st', tr1 ++ tr2 ++ tr,
        loadNextFilter_cons_success_thrown haeq heq2 hrunT, ?_, ?_⟩
      · intro a ha j hj
        cases List.mem_append.mp ha with
        | inl h12 =>
          cases List.mem_append.mp h12 with
          | inl h1 =>
            rw [hfid1 a h1 j hj]
            exact List.mem_cons_self _ _
          | inr h2 =>
            rw [hfid2 a h2 j hj]
            exact List.mem_cons_self _ _
        | inr h3 => exact List.mem_cons_of_mem _ (hacts a h3 j hj)
      · intro j hj
        have hjx : j ≠ x := fun he => hj (he ▸ List.mem_cons_self x pre')
        have hjp : j ∉ pre' := fun hm => hj (List.mem_cons_of_mem _ hm)
        have h3 := hfr j hjp
        have h2 := hfr2 j hjx
        have h1 := hfr1 j hjx
        exact ⟨h3.1.trans (h2.1.trans h1.1), h3.2.trans (h2.2.trans h1.2)⟩
    · have hsucc' : (f.installed || f.loaded || env.loadOutcome x) = false :=
        Bool.not_eq_true _ ▸ hsucc
      rw [hsucc'] at haeq
      obtain ⟨hst1, _⟩ := hfail1 hsucc'
      rw [hst1] at haeq
      have hpre1 : ∀ a ∈ pre', present st a = true :=
        fun a ha => hpre a (List.mem_cons_of_mem _ ha)
      obtain ⟨st', tr, hrunT, hacts, hfr⟩ := ih bad post st hnd2 hpre1 hbad
      refine ⟨st', tr1 ++ tr,
        loadNextFilter_cons_failure_thrown haeq hrunT, ?_, ?_⟩
      · intro a ha j hj
        cases List.mem_append.mp ha with
        | inl h1 =>
          rw [hfid1 a h1 j hj]
          exact List.mem_cons_self _ _
        | inr h3 => exact List.mem_cons_of_mem _ (hacts a h3 j hj)
      · intro j hj
        exact hfr j (fun hm => hj (List.mem_cons_of_mem _ hm))

/-- C10: when the deduplicated batch contains an id absent from the catalog,
`addAndEnableFilters` throws synchronously when that id is reached: every
traced action belongs to an id occurring before the absent one, and no id
from the absent one onwards is loaded (no `loadStart`) or has its catalog
object, persisted store entry or enabled status changed — unlike an external
load failure, which lets the batch continue. -/
theorem addAndEnableFilters_throws_on_absent (env : Env) (st : MState)
    (ids pre : List Nat) (bad : Nat) (post : List Nat)
    (hsplit : removeDuplicates ids = pre ++ bad :: post)
    (hpre : ∀ a ∈ pre, present st a = true)
    (hbad : present st bad = false) :
    ∃ st' tr, addAndEnableFilters env st ids = .thrown st' tr ∧
      (∀ a ∈ tr, ∀ j, actionFid a = some j → j ∈ pre) ∧
      (∀ j ∈ bad :: post, Action.loadStart j ∉ tr ∧
        getFilterSt st' j = getFilterSt st j ∧
        storeGet st'.store j = storeGet st.store j ∧
        isFilterEnabled st' j = isFilterEnabled st j) := by
  have hnd := nodup_removeDuplicates ids
  rw [hsplit] at hnd
  have hlen : ¬ (ids.length = 0) := by
    intro h0
    have hids : ids = [] := List.length_eq_zero.mp h0
    rw [hids] at hsplit
    have h1 : pre ++ bad :: post = [] := hsplit.symm
    exact List.cons_ne_nil bad post (List.append_eq_nil.mp h1).2
  obtain ⟨st', tr, hrun, hacts, hfr⟩ :=
    loadNextFilter_thrown_spec env pre bad post st hnd hpre hbad
  have heq : addAndEnableFilters env st ids = .thrown st' tr := by
    rw [addAndEnableFilters, if_neg hlen, hsplit]
    exact hrun
  have hdisj := (List.nodup_append.mp hnd).2.2
  refine ⟨st', tr, heq, hacts, ?_⟩
  intro j hj
  have hjpre : j ∉ pre := fun hjp => hdisj hjp hj
  have hfj := hfr j hjpre
  refine ⟨?_, hfj.1, hfj.2, isFilterEnabled_congr hfj.1 hfj.2⟩
  intro hmem
  exact hjpre (hacts (Action.loadStart j) hmem j rfl)

theorem addAndEnableFilters_throws_on_absent_witness :
    removeDuplicates [1, 2, 3] = [1] ++ 2 :: [3] ∧
    (∀ a ∈ [1], present stAbs a = true) ∧
    present stAbs 2 = false ∧
    (∃ st' tr, addAndEnableFilters envPlat stAbs [1, 2, 3] = .thrown st' tr ∧
      (∀ a ∈ tr, ∀ j, actionFid a = some j → j ∈ [1]) ∧
      (∀ j ∈ 2 :: [3], Action.loadStart j ∉ tr ∧
        getFilterSt st' j = getFilterSt stAbs j ∧
        storeGet st'.store j = storeGet stAbs.store j ∧
        isFilterEnabled st' j = isFilterEnabled stAbs j)) :=
  ⟨by decide, by decide, by decide,
    addAndEnableFilters_throws_on_absent envPlat stAbs [1, 2, 3] [1] 2 [3]
      (by decide) (by decide) (by decide)⟩

/-! ## enableFiltersGroup — seeding a never-toggled group -/

/-- Ids produced by the category selector are catalog filter ids. -/
theorem getRecommendedFilterIds_present
    (env : Env) (filters : List Filter) (groups : List Group) (tags : List Tag)
    (groupId : Nat) {fid : Nat}
    (h : fid ∈ (getRecommendedFilterIdsByGroupId env filters groups tags groupId).1) :
    fid ∈ filters.map Filter.filterId := by
  rw [getRecommendedFilterIds_eq] at h
  cases hfind : (getFiltersMetadataCat filters groups tags).2.1.find?
      (fun c => c.1.groupId = groupId) with
  | none =>
    rw [hfind] at h
    have h' : fid ∈ ([] : List Nat) := h
    simp at h'
  | some c =>
    rw [hfind] at h
    have h' : fid ∈ (c.2.filter (fun fd =>
        isOfferedFilter env (getFiltersMetadataCat filters groups tags).2.2 fd.1
          env.langSuitableFilters env.safariFilterId)).map
          (fun fd => fd.1.filterId) := h
    simp only [List.mem_map, List.mem_filter] at h'
    obtain ⟨fd, ⟨hfd, _⟩, hfid⟩ := h'
    have hcmem : c ∈ (getFiltersMetadataCat filters groups tags).2.1 :=
      List.mem_of_find?_eq_some hfind
    have hcat : (getFiltersMetadataCat filters groups tags).2.1 =
        groups.map (fun g => (g, (getFiltersCat filters tags).1.filter
          (fun fd => fd.1.groupId = g.groupId))) := rfl
    rw [hcat] at hcmem
    simp only [List.mem_map] at hcmem
    obtain ⟨g, _, hgc⟩ := hcmem
    have hfd2 : fd ∈ (getFiltersCat filters tags).1.filter
        (fun fd => fd.1.groupId = g.groupId) := by
      rw [← hgc] at hfd
      exact hfd
    have hmem := (mem_getFiltersCat (List.mem_of_mem_filter hfd2)).1
    exact hfid ▸ List.mem_map_of_mem Filter.filterId hmem

/-- Successful batch summary used by the group-seeding proof. -/
theorem addAndEnableFilters_ok (env : Env) (st : MState) (ids : List Nat)
    (hpres : ∀ i ∈ ids, present st i = true) :
    ∃ st' tr, addAndEnableFilters env st ids = .ok st' tr ∧
      st'.filters.map Filter.filterId = st.filters.map Filter.filterId ∧
      st'.groups.map Group.groupId = st.groups.map Group.groupId ∧
      st'.tags = st.tags ∧
      (∀ i ∈ ids, env.loadOutcome i = true →
        isFilterEnabled st' i = true ∧
        ∃ f1, getFilterSt st' i = some f1 ∧ f1.installed = true) ∧
      (∀ gid, findBy Group.groupId gid st'.groups ≠
          findBy Group.groupId gid st.groups →
        Action.event (.filterGroupEnableDisable gid) ∈ tr) := by
  by_cases hlen : ids.length = 0
  · have hids : ids = [] := List.length_eq_zero.mp hlen
    subst hids
    exact ⟨st, [], rfl, rfl, rfl, rfl,
      fun i hi => absurd hi (List.not_mem_nil i),
      fun gid hne => absurd rfl hne⟩
  · have hpd : ∀ i ∈ removeDuplicates ids, present st i = true :=
      fun i hi => hpres i (mem_of_mem_removeDuplicates ids i hi)
    obtain ⟨st', tr, hrun, hmapf, hmapg, htg, hfr, hids', hsegs, hgrp⟩ :=
      loadNextFilter_spec env (removeDuplicates ids) st
        (nodup_removeDuplicates ids) hpd
    have heq : addAndEnableFilters env st ids = .ok st' tr := by
      rw [addAndEnableFilters, if_neg hlen]
      exact hrun
    refine ⟨st', tr, heq, hmapf, hmapg, htg, ?_, hgrp⟩
    intro i hi hout
    have hid := mem_removeDuplicates_of_mem hi
    obtain ⟨f, hf⟩ : ∃ f, getFilterSt st i = some f := by
      have hp := hpd i hid
      rw [present] at hp
      cases hgf : getFilterSt st i with
      | none => rw [hgf] at hp; exact Bool.noConfusion hp
      | some f => exact ⟨f, rfl⟩
    have hexpr : (f.installed || f.loaded || env.loadOutcome i) = true := by
      simp [hout]
    exact (hids' i hid f hf).1 hexpr

theorem enableGroup_already {st : MState} {gid : Nat} {g : Group}
    (hg : getGroupSt st gid = some g) (he : g.enabled = some true) :
    enableGroup st gid = (st, []) := by
  rw [enableGroup, hg]
  show (if g.enabled = some true then (st, [])
        else ({ st with groups := (updateBy Group.groupId gid
            (fun g0 => { g0 with enabled := some true }) st.groups) },
          [Action.event (Event.filterGroupEnableDisable gid)])) = (st, [])
  rw [if_pos he]

theorem enableGroup_emits {st : MState} {gid : Nat} {g : Group}
    (hg : getGroupSt st gid = some g) (hne : ¬ (g.enabled = some true)) :
    (enableGroup st gid).2 = [Action.event (.filterGroupEnableDisable gid)] := by
  rw [enableGroup, hg]
  show (if g.enabled = some true then (st, [])
        else ({ st with groups := (updateBy Group.groupId gid
            (fun g0 => { g0 with enabled := some true }) st.groups) },
          [Action.event (Event.filterGroupEnableDisable gid)])).2 =
    [Action.event (Event.filterGroupEnableDisable gid)]
  rw [if_neg hne]

theorem isGroupEnabled_of_some {st : MState} {gid : Nat} {g : Group}
    (hg : getGroupSt st gid = some g) (he : g.enabled = some true) :
    isGroupEnabled st gid = true := by
  rw [isGroupEnabled, hg]
  exact decide_eq_true he

/-- C2 (amended): on a catalog group whose `enabled` is still undefined, the
first `enableFiltersGroup` call (with every external load succeeding) seeds
the group's recommended filters — each ends enabled and installed — then
enables the group and emits `FILTER_GROUP_ENABLE_DISABLE`; a second call
performs no seeding and, because `enableGroup` is a no-op on an
already-enabled group, emits no events at all. -/
theorem enableFiltersGroup_seeds_once (env : Env) (st : MState) (gid : Nat)
    {g : Group}
    (hg : getGroupSt st gid = some g) (hnever : g.enabled = none)
    (hload : ∀ i, env.loadOutcome i = true) :
    ∃ st1 tr1, enableFiltersGroup env st gid = .ok st1 tr1 ∧
      (∃ g1, getGroupSt st1 gid = some g1 ∧ g1.enabled = some true) ∧
      isGroupEnabled st1 gid = true ∧
      Action.event (.filterGroupEnableDisable gid) ∈ tr1 ∧
      (∀ i ∈ (getRecommendedFilterIdsByGroupId env st.filters st.groups
          st.tags gid).1,
        isFilterEnabled st1 i = true ∧
        ∃ f1, getFilterSt st1 i = some f1 ∧ f1.installed = true) ∧
      enableFiltersGroup env st1 gid = .ok st1 [] := by
  have hpresT : ∀ i ∈ (getRecommendedFilterIdsByGroupId env st.filters st.groups
      st.tags gid).1,
      present { st with tags := (getRecommendedFilterIdsByGroupId env st.filters
        st.groups st.tags gid).2 } i = true := by
    intro i hi
    have hmem := getRecommendedFilterIds_present env st.filters st.groups st.tags gid hi
    exact (@findBy_isSome_iff_mem Filter Filter.filterId i st.filters).mpr hmem
  obtain ⟨stA, trA, hA, hmapfA, hmapgA, htgA, henA, hgrpA⟩ :=
    addAndEnableFilters_ok env
      { st with tags := (getRecommendedFilterIdsByGroupId env st.filters
          st.groups st.tags gid).2 }
      (getRecommendedFilterIdsByGroupId env st.filters st.groups st.tags gid).1
      hpresT
  have hgT : findBy Group.groupId gid
      ({ st with tags := (getRecommendedFilterIdsByGroupId env st.filters
        st.groups st.tags gid).2 } : MState).groups = some g := hg
  have hgidmem : gid ∈ st.groups.map Group.groupId := by
    apply (@findBy_isSome_iff_mem Group Group.groupId gid st.groups).mp
    rw [show findBy Group.groupId gid st.groups = some g from hg]
    rfl
  have hfindA : gid ∈ stA.groups.map Group.groupId := by
    rw [hmapgA]
    exact hgidmem
  obtain ⟨gA, hgA⟩ : ∃ gA, getGroupSt stA gid = some gA := by
    cases hfa : findBy Group.groupId gid stA.groups with
    | none =>
      exfalso
      have hs := (@findBy_isSome_iff_mem Group Group.groupId gid stA.groups).mpr hfindA
      rw [hfa] at hs
      exact Bool.noConfusion hs
    | some gA => exact ⟨gA, hfa⟩
  obtain ⟨hfE, hsE, htE, hmE, hneE, hsomeE, haE⟩ := enableGroup_spec stA gid
  have hg1 : getGroupSt (enableGroup stA gid).1 gid =
      some { gA with enabled := some true } := hsomeE gA hgA
  have hcall1 : enableFiltersGroup env st gid =
      .ok (enableGroup stA gid).1 (trA ++ (enableGroup stA gid).2) := by
    rw [enableFiltersGroup]
    split
    · rename_i g' heq
      have hgg : g = g' := Option.some.inj (hg.symm.trans heq)
      subst hgg
      rw [if_pos hnever]
      split
      · rename_i st2' tr2' heq2
        exact JSRes.noConfusion (hA.symm.trans heq2)
      · rename_i st2' tr2' heq2
        have hp := hA.symm.trans heq2
        injection hp with h1 h2
        subst h1
        subst h2
        rfl
    · rename_i heq
      exact Option.noConfusion (hg.symm.trans heq)
  have hEG1 : enableGroup (enableGroup stA gid).1 gid =
      ((enableGroup stA gid).1, []) :=
    enableGroup_already hg1 rfl
  have hcall2 : enableFiltersGroup env (enableGroup stA gid).1 gid =
      .ok (enableGroup stA gid).1 [] := by
    rw [enableFiltersGroup]
    split
    · rename_i g' heq
      have hgg : { gA with enabled := some true } = g' :=
        Option.some.inj (hg1.symm.trans heq)
      subst hgg
      have hne2 : ¬ (({ gA with enabled := some true } : Group).enabled = none) := by
        intro hcon
        exact Option.noConfusion hcon
      rw [if_neg hne2, hEG1]
    · rename_i heq
      exact Option.noConfusion (hg1.symm.trans heq)
  refine ⟨(enableGroup stA gid).1, trA ++ (enableGroup stA gid).2, hcall1,
    ⟨{ gA with enabled := some true }, hg1, rfl⟩,
    isGroupEnabled_of_some hg1 rfl, ?_, ?_, hcall2⟩
  · by_cases hga : gA.enabled = some true
    · have hne : findBy Group.groupId gid stA.groups ≠ findBy Group.groupId gid
          ({ st with tags := (getRecommendedFilterIdsByGroupId env st.filters
            st.groups st.tags gid).2 } : MState).groups := by
        rw [show findBy Group.groupId gid stA.groups = some gA from hgA, hgT]
        intro hcon
        have hgeq : gA = g := Option.some.inj hcon
        rw [← hgeq, hga] at hnever
        exact Option.noConfusion hnever
      exact List.mem_append_left _ (hgrpA gid hne)
    · refine List.mem_append_right _ ?_
      rw [enableGroup_emits hgA hga]
      exact List.mem_cons_self _ _
  · intro i hi
    obtain ⟨hen, f1, hgf1, hins1⟩ := henA i hi (hload i)
    have hgeq : getFilterSt (enableGroup stA gid).1 i = getFilterSt stA i :=
      getFilterSt_ext hfE i
    have hseq : storeGet (enableGroup stA gid).1.store i = storeGet stA.store i := by
      rw [hsE]
    exact ⟨(isFilterEnabled_congr hgeq hseq).trans hen,
      f1, hgeq.trans hgf1, hins1⟩

/-- C2 counterexample: on a never-toggled group, the second
`enableFiltersGroup` call emits no events at all — it does not re-emit the
group-enable event, because `enableGroup` is a no-op once `group.enabled` is
truthy. -/
theorem enableFiltersGroup_second_counterexample :
    (∃ g, getGroupSt stC2 10 = some g ∧ g.enabled = none) ∧
    enableFiltersGroup envPlat stC2 10 =
      .ok stC2on [Action.event (.filterGroupEnableDisable 10)] ∧
    enableFiltersGroup envPlat stC2on 10 = .ok stC2on [] :=
  ⟨⟨{ groupId := 10, enabled := none }, rfl, rfl⟩, by decide, by decide⟩

theorem enableFiltersGroup_seeds_once_witness :
    getGroupSt stC2seed 10 = some { groupId := 10, enabled := none } ∧
    (∀ i, envPlat.loadOutcome i = true) ∧
    (∃ st1 tr1, enableFiltersGroup envPlat stC2seed 10 = .ok st1 tr1 ∧
      (∃ g1, getGroupSt st1 10 = some g1 ∧ g1.enabled = some true) ∧
      isGroupEnabled st1 10 = true ∧
      Action.event (.filterGroupEnableDisable 10) ∈ tr1 ∧
      (∀ i ∈ (getRecommendedFilterIdsByGroupId envPlat stC2seed.filters
          stC2seed.groups stC2seed.tags 10).1,
        isFilterEnabled st1 i = true ∧
        ∃ f1, getFilterSt st1 i = some f1 ∧ f1.installed = true) ∧
      enableFiltersGroup envPlat st1 10 = .ok st1 []) :=
  ⟨by decide, fun i => rfl,
    @enableFiltersGroup_seeds_once envPlat stC2seed 10
      { groupId := 10, enabled := none } (by decide) rfl (fun i => rfl)⟩

end AdGuard
